import Mathlib

/-!
Verification of the WordPress import module (`nikola/plugins/command/import_wordpress.py`).

Strings are modelled as `List Char` (`Str`), matching the Python `str` values the
module manipulates.  Pure helper functions of the module are translated directly;
external collaborators (urllib's `urlparse`/`unquote`, `utils.slugify`,
`utils.to_datetime`, `utils.get_translation_candidate`, the template renderer,
the network fetch and the file writers) are modelled as parameters of the
configuration record or as recorded events, since their code lives outside this
module.  Side effects (log calls, file writes, downloads) are modelled as event
lists accumulated in the results.
-/

set_option maxRecDepth 10000

abbrev Str := List Char

/-- Python `str.isspace` characters relevant here (ASCII whitespace; the inputs
handled by the importer are ASCII in the modelled scope). -/
def pyIsSpace (c : Char) : Bool :=
  c == ' ' || c == '\t' || c == '\n' || c == '\r' || c == '\x0b' || c == '\x0c'

/-- Python `str.lstrip` with a predicate describing the stripped character set. -/
def lstripP (p : Char → Bool) (l : Str) : Str := l.dropWhile p

/-- Python `str.rstrip` with a predicate. -/
def rstripP (p : Char → Bool) (l : Str) : Str := (l.reverse.dropWhile p).reverse

/-- Python `str.strip` with a predicate. -/
def stripP (p : Char → Bool) (l : Str) : Str := rstripP p (lstripP p l)

/-- Python `str.strip()` (whitespace). -/
def pyStrip (l : Str) : Str := stripP pyIsSpace l

/-- Python `str.strip('/')`. -/
def stripSlashes (l : Str) : Str := stripP (fun c => c == '/') l

/-- Python `str.rstrip('/')`. -/
def rstripSlashes (l : Str) : Str := rstripP (fun c => c == '/') l

/-- Core of Python `str.split(sep)` for a non-empty separator `s0 :: st`:
scan left to right, breaking at each non-overlapping occurrence of the
separator.  Structural recursion on a fuel argument; each step consumes at
least one character, so `fuel = l.length` always suffices. -/
def splitOnSepCore (s0 : Char) (st : Str) : Nat → Str → List Str
  | _, [] => [[]]
  | 0, l => [l]
  | fuel + 1, c :: rest =>
    if (s0 :: st).isPrefixOf (c :: rest) then
      [] :: splitOnSepCore s0 st fuel (rest.drop st.length)
    else
      match splitOnSepCore s0 st fuel rest with
      | [] => [[c]]
      | x :: xs => (c :: x) :: xs

/-- Python `str.split(sep)`.  Python raises on an empty separator; the module
only splits on non-empty separators, so the empty case is arbitrary. -/
def splitOnSep (sep : Str) (l : Str) : List Str :=
  match sep with
  | [] => [l]
  | s0 :: st => splitOnSepCore s0 st l.length l

/-- Core of Python `str.replace(pat, rep)` for non-empty `pat = p0 :: pt`:
replace every non-overlapping occurrence, scanning left to right
(fueled structural recursion, `fuel = l.length` suffices). -/
def replaceAllCore (p0 : Char) (pt : Str) (rep : Str) : Nat → Str → Str
  | _, [] => []
  | 0, l => l
  | fuel + 1, c :: rest =>
    if (p0 :: pt).isPrefixOf (c :: rest) then
      rep ++ replaceAllCore p0 pt rep fuel (rest.drop pt.length)
    else
      c :: replaceAllCore p0 pt rep fuel rest

/-- Python `str.replace(pat, rep)` (all occurrences).  The module never calls
`replace` with an empty pattern except `path.replace('', '', 1)` which is the
identity, so the empty-pattern case returns the input unchanged. -/
def pyReplaceAll (pat rep : String) (l : Str) : Str :=
  match pat.toList with
  | [] => l
  | p0 :: pt => replaceAllCore p0 pt rep.toList l.length l

/-- Python `str.replace(pat, rep, 1)`: replace the first occurrence only. -/
def replaceFirstCore (p0 : Char) (pt : Str) (rep : Str) : Str → Str
  | [] => []
  | c :: rest =>
    if (p0 :: pt).isPrefixOf (c :: rest) then
      rep ++ rest.drop pt.length
    else
      c :: replaceFirstCore p0 pt rep rest

/-- Python `pat in s` (substring containment). -/
def occursIn (pat : Str) : Str → Bool
  | [] => pat.isEmpty
  | c :: rest => pat.isPrefixOf (c :: rest) || occursIn pat rest

/-- Python truthiness of an optional string: `None` and `''` are falsy. -/
def pyTruthy (o : Option Str) : Option Str :=
  match o with
  | none => none
  | some s => if s.isEmpty then none else some s

/-! ## The qtranslate splitter (`separate_qtranslate_content`)

The dictionary `content_by_lang` is modelled as an insertion-ordered
association list, matching the insertion-order iteration of Python dicts. -/

/-- `dict.get k` on an insertion-ordered association list. -/
def assocGet (m : List (Str × List Str)) (k : Str) : Option (List Str) :=
  (m.find? (fun p => p.1 == k)).map (·.2)

/-- `dict[k] = v` on an insertion-ordered association list: update in place if
the key is present, else append. -/
def assocSet (m : List (Str × List Str)) (k : Str) (v : List Str) :
    List (Str × List Str) :=
  match m with
  | [] => [(k, v)]
  | p :: rest => if p.1 == k then (k, v) :: rest else p :: assocSet rest k v

/-- One iteration of the chunk loop of `separate_qtranslate_content`.  The state
is `(content_by_lang, common_txt_list)`. -/
def qtStep (st : List (Str × List Str) × List Str) (c : Str) :
    List (Str × List Str) × List Str :=
  let m := st.1
  let common := st.2
  if (pyStrip c).isEmpty then st
  else if "-->".toList.isPrefixOf c then
    -- just after the end of a language specific section (lang = "")
    let c2 := lstripP (fun ch => ch == '-' || ch == '>') c
    if c2.isEmpty then st
    else (m.map (fun p => (p.1, p.2 ++ [c2])), common ++ [c2])
  else if "-->".toList.isPrefixOf (c.drop 2) then
    -- a language specific section, language code at the beginning
    let lang := c.take 2
    let c2 := c.drop 5
    (assocSet m lang ((assocGet m lang).getD common ++ [c2]), common)
  else
    -- nowhere specific (lang = "")
    (m.map (fun p => (p.1, p.2 ++ [c])), common ++ [c])

/-- `separate_qtranslate_content` (module lines 666-707): split the text on the
qtranslate start tag, bucket the chunks per language, and join each bucket with
a single space. -/
def separate_qtranslate_content (text : Str) : List (Str × Str) :=
  let qt_chunks := splitOnSep "<!--:".toList text
  let st := qt_chunks.foldl qtStep ([], [])
  let m := if st.1.isEmpty && !st.2.isEmpty then [(([] : Str), st.2)] else st.1
  m.map (fun p => (p.1, List.intercalate [' '] p.2))

/-- **C2**: the two documented examples of `separate_qtranslate_content`. -/
theorem separate_qtranslate_content_examples :
    separate_qtranslate_content "<!--:en-->Hello<!--:--><!--:fr-->Bonjour<!--:-->".toList =
      [("en".toList, "Hello".toList), ("fr".toList, "Bonjour".toList)] ∧
    separate_qtranslate_content "Shared text".toList = [([], "Shared text".toList)] := by
  constructor <;> rfl

/-- A whitespace character is not `'<'` (the first character of the qtranslate
start tag). -/
theorem pyIsSpace_ne_lt {c : Char} (h : pyIsSpace c = true) : c ≠ '<' := by
  intro hc
  subst hc
  exact absurd h (by decide)

/-- Splitting an all-whitespace string on the qtranslate start tag leaves it in
one piece: the separator starts with `'<'`, which is not whitespace. -/
theorem splitOnSepCore_of_all_ws (st : Str) :
    ∀ l : Str, (∀ c ∈ l, pyIsSpace c = true) →
      splitOnSepCore '<' st l.length l = [l] := by
  intro l
  induction l with
  | nil => intro _; rfl
  | cons c rest ih =>
    intro h
    have hne : ('<' : Char) ≠ c :=
      Ne.symm (pyIsSpace_ne_lt (h c (List.mem_cons_self c rest)))
    have hpre : (('<' :: st).isPrefixOf (c :: rest)) = false := by
      simp [List.isPrefixOf, hne]
    have hrest : splitOnSepCore '<' st rest.length rest = [rest] :=
      ih (fun d hd => h d (List.mem_cons_of_mem c hd))
    show splitOnSepCore '<' st (rest.length + 1) (c :: rest) = [c :: rest]
    rw [splitOnSepCore, hpre]
    simp [hrest]

/-- An all-whitespace string strips to the empty string. -/
theorem pyStrip_of_all_ws {l : Str} (h : ∀ c ∈ l, pyIsSpace c = true) :
    pyStrip l = [] := by
  have h1 : lstripP pyIsSpace l = [] := by
    simp only [lstripP]
    exact List.dropWhile_eq_nil_iff.mpr h
  simp [pyStrip, stripP, rstripP, h1]

/-- **C10**: on an empty or all-whitespace input, `separate_qtranslate_content`
returns the empty mapping — each chunk is skipped before any bucket assignment,
so not even the default-language key is produced. -/
theorem separate_qtranslate_content_all_ws (l : Str)
    (h : ∀ c ∈ l, pyIsSpace c = true) :
    separate_qtranslate_content l = [] := by
  unfold separate_qtranslate_content
  have hsplit : splitOnSep "<!--:".toList l = [l] := by
    show splitOnSepCore '<' "!--:".toList l.length l = [l]
    exact splitOnSepCore_of_all_ws _ l h
  rw [hsplit]
  have hstep : qtStep ([], []) l = ([], []) := by
    unfold qtStep
    simp [pyStrip_of_all_ws h]
  simp [hstep]

/-- Witness for C10 at the concrete whitespace-only input `" \n "`. -/
theorem separate_qtranslate_content_all_ws_witness :
    separate_qtranslate_content " \n ".toList = [] :=
  separate_qtranslate_content_all_ws " \n ".toList (by decide)

/-! ## A small backtracking matcher for the module's fixed regular expressions

The module uses `re.sub` with six fixed patterns built from: literal text,
`.*` (greedy, with and without DOTALL), `.*?` (lazy), the capturing group
`(.*?)` (and `(.*?)?`, which behaves identically up to a `None` capture that
the replacement normalises away with `or ''`), and `\n{3,}`.  The matcher
below enumerates candidate matches in exactly the backtracking priority order
of Python's `re` engine for these constructs; the head of the list is the
match `re` returns. -/

/-- Remainders of `s` after a lazy `.*?` (DOTALL) consumed 0, 1, 2, …
characters, in backtracking priority order (shortest first). -/
def suffixesLazy : Str → List Str
  | [] => [[]]
  | c :: rest => (c :: rest) :: suffixesLazy rest

/-- Remainders after `.*` without DOTALL consumed 0, 1, … characters: it may
not consume a newline. -/
def suffixesLazyNoNL : Str → List Str
  | [] => [[]]
  | c :: rest =>
    if c == '\n' then [c :: rest] else (c :: rest) :: suffixesLazyNoNL rest

/-- Splits `(consumed, remainder)` of `s` for the capturing lazy group
`(.*?)`, shortest capture first. -/
def splitsLazy : Str → List (Str × Str)
  | [] => [([], [])]
  | c :: rest => ([], c :: rest) :: (splitsLazy rest).map (fun p => (c :: p.1, p.2))

/-- The regular-expression fragments needed by the module's six patterns. -/
inductive RE where
  | lit : Str → RE
  | starLazy : RE
  | starGreedy : RE
  | starGreedyNoNL : RE
  | grpLazy : RE
  | runGE : Char → Nat → RE
  | seq : RE → RE → RE

/-- All candidate matches of `r` at the start of `s`, as
`(captured groups, remainder)` pairs in backtracking priority order.
The head of the list is the match Python's `re` engine produces. -/
def matchRE : RE → Str → List (List Str × Str)
  | .lit p, s => if p.isPrefixOf s then [([], s.drop p.length)] else []
  | .starLazy, s => (suffixesLazy s).map (fun r => (([] : List Str), r))
  | .starGreedy, s => (suffixesLazy s).reverse.map (fun r => (([] : List Str), r))
  | .starGreedyNoNL, s => (suffixesLazyNoNL s).reverse.map (fun r => (([] : List Str), r))
  | .grpLazy, s => (splitsLazy s).map (fun p => ([p.1], p.2))
  | .runGE c k, s =>
      let m := (s.takeWhile (fun d => d == c)).length
      if m < k then []
      else (List.range (m - k + 1)).map (fun i => (([] : List Str), s.drop (m - i)))
  | .seq a b, s =>
      (matchRE a s).flatMap (fun pr =>
        (matchRE b pr.2).map (fun qr => (pr.1 ++ qr.1, qr.2)))

/-- `re.sub(r, f, s)`: scan left to right, replace each non-overlapping match
by `f groups matchedText`, and continue after the match.  Fueled structural
recursion; every pattern of the module contains a non-empty literal, so each
match consumes at least one character and `fuel = l.length` suffices (the
`len == 0` guard is unreachable and merely advances one character). -/
def reSubFuel (r : RE) (f : List Str → Str → Str) : Nat → Str → Str
  | _, [] => []
  | 0, l => l
  | fuel + 1, c :: rest =>
    match matchRE r (c :: rest) with
    | [] => c :: reSubFuel r f fuel rest
    | m :: _ =>
      if m.2.length < (c :: rest).length then
        f m.1 ((c :: rest).take ((c :: rest).length - m.2.length)) ++
          reSubFuel r f fuel m.2
      else
        c :: reSubFuel r f fuel rest

/-- `re.sub` entry point. -/
def reSub (r : RE) (f : List Str → Str → Str) (l : Str) : Str :=
  reSubFuel r f l.length l

/-- Shorthand for a literal pattern fragment. -/
def litS (s : String) : RE := .lit s.toList

/-! ## Text transformers (module lines 393-447) -/

/-- `code_re1 = r'\[code.* lang.*?="(.*?)?".*\](.*?)\[/code\]'` (DOTALL).
`(.*?)?` is modelled by the plain capturing lazy group: the greedy optional
tries the present branch first and its lazy body tries the empty capture
first, so the priority order of remainders is identical; the only difference
is a `None` capture in the absent branch, which the replacement maps to `''`
via `m.group(1) or ''`. -/
def code_re1 : RE :=
  .seq (litS "[code") (.seq .starGreedy (.seq (litS " lang")
    (.seq .starLazy (.seq (litS "=\"") (.seq .grpLazy (.seq (litS "\"")
      (.seq .starGreedy (.seq (litS "]") (.seq .grpLazy (litS "[/code]"))))))))))

/-- `code_re2`: the `sourcecode` spelling of `code_re1`. -/
def code_re2 : RE :=
  .seq (litS "[sourcecode") (.seq .starGreedy (.seq (litS " lang")
    (.seq .starLazy (.seq (litS "=\"") (.seq .grpLazy (.seq (litS "\"")
      (.seq .starGreedy (.seq (litS "]") (.seq .grpLazy (litS "[/sourcecode]"))))))))))

/-- `code_re3 = r'\[code.*?\](.*?)\[/code\]'` (DOTALL). -/
def code_re3 : RE :=
  .seq (litS "[code") (.seq .starLazy (.seq (litS "]")
    (.seq .grpLazy (litS "[/code]"))))

/-- `code_re4`: the `sourcecode` spelling of `code_re3`. -/
def code_re4 : RE :=
  .seq (litS "[sourcecode") (.seq .starLazy (.seq (litS "]")
    (.seq .grpLazy (litS "[/sourcecode]"))))

/-- The four `str.replace` calls unescaping HTML entities inside a code body,
in source order. -/
def codeUnescape (code : Str) : Str :=
  pyReplaceAll "&quot;" "\""
    (pyReplaceAll "&lt;" "<"
      (pyReplaceAll "&gt;" ">"
        (pyReplaceAll "&amp;" "&" code)))

/-- The `replacement` closure of `transform_code`: with a single group the
code body is `m.group(0)` (the whole match); with two groups the language is
`m.group(1) or ''` and the body is `m.group(2)`. -/
def codeReplacement (groups : List Str) (whole : Str) : Str :=
  let lc : Str × Str :=
    if groups.length == 1 then ([], whole)
    else (groups.headD [], groups.getD 1 [])
  "```".toList ++ lc.1 ++ ['\n'] ++ codeUnescape lc.2 ++ ['\n'] ++ "```".toList

/-- `transform_code`: the four substitution passes in source order. -/
def transform_code (content : Str) : Str :=
  reSub code_re4 codeReplacement
    (reSub code_re3 codeReplacement
      (reSub code_re2 codeReplacement
        (reSub code_re1 codeReplacement content)))

/-- `re.sub(r'\[/caption\]', '', ·)`. -/
def caption_close_re : RE := litS "[/caption]"

/-- `re.sub(r'\[caption.*\]', '', ·)` — `.*` without DOTALL. -/
def caption_open_re : RE :=
  .seq (litS "[caption") (.seq .starGreedyNoNL (litS "]"))

/-- `transform_caption`: remove the close marker, then the open marker. -/
def transform_caption (content : Str) : Str :=
  reSub caption_open_re (fun _ _ => [])
    (reSub caption_close_re (fun _ _ => []) content)

/-- `transform_multiple_newlines`: collapse `\n{3,}` to two newlines when the
`squash_newlines` option is set. -/
def transform_multiple_newlines (squash : Bool) (content : Str) : Str :=
  if squash then reSub (.runGE '\n' 3) (fun _ _ => "\n\n".toList) content
  else content

/-- `transform_content`: dispatch on the declared post format; returns
`none` (Python `None`, which makes the caller's tuple unpacking raise) for an
unsupported format. -/
def transform_content (squash : Bool) (content : Str) (post_format : Str) :
    Option (Str × Str) :=
  if post_format == "wp".toList then
    some (transform_multiple_newlines squash (transform_caption (transform_code content)),
          "md".toList)
  else if post_format == "markdown".toList then
    some (content, "md".toList)
  else if post_format == "none".toList then
    some (content, "html".toList)
  else
    none

/-- **C3** (code-bug evidence): for a code marker without a `lang` attribute
the pattern has a single group and `replacement` takes the body from
`m.group(0)` — the whole match, markers included — so the marker tokens
`[code]`/`[/code]` survive inside the emitted fenced block, contradicting the
claim that no marker tokens remain (the `lang` variant, which uses
`m.group(2)`, does remove them, as the second conjunct shows). -/
theorem transform_code_keeps_markers :
    transform_code "[code]x &amp; y[/code]".toList =
      "```\n[code]x & y[/code]\n```".toList ∧
    occursIn "[code]".toList
      (transform_code "[code]x &amp; y[/code]".toList) = true ∧
    transform_code "[code lang=\"python\"]x &amp; y[/code]".toList =
      "```python\nx & y\n```".toList := by
  refine ⟨by rfl, by rfl, by rfl⟩

/-- **C4**: `transform_content` dispatches on the declared post format:
`"wp"` pipes the content through `transform_code`, `transform_caption` and
`transform_multiple_newlines` in that order and yields the Markdown
extension; `"markdown"` passes through unchanged as Markdown; `"none"` passes
through unchanged as HTML; every other format yields the failure value. -/
theorem transform_content_dispatch (squash : Bool) (content fmt : Str) :
    transform_content squash content "wp".toList =
      some (transform_multiple_newlines squash
              (transform_caption (transform_code content)), "md".toList) ∧
    transform_content squash content "markdown".toList =
      some (content, "md".toList) ∧
    transform_content squash content "none".toList =
      some (content, "html".toList) ∧
    (fmt ≠ "wp".toList → fmt ≠ "markdown".toList → fmt ≠ "none".toList →
      transform_content squash content fmt = none) := by
  refine ⟨by rfl, by rfl, by rfl, ?_⟩
  intro h1 h2 h3
  simp only [transform_content, beq_iff_eq]
  rw [if_neg h1, if_neg h2, if_neg h3]

/-- Witness for C4 at a concrete unsupported format value. -/
theorem transform_content_dispatch_witness :
    transform_content false "x".toList "video".toList = none :=
  (transform_content_dispatch false "x".toList "video".toList).2.2.2
    (by decide) (by decide) (by decide)

/-! ## Generic lemmas about the matcher and `reSub` -/

theorem suffixesLazy_ne_nil (l : Str) : suffixesLazy l ≠ [] := by
  cases l <;> simp [suffixesLazy]

/-- On newline-free text the non-DOTALL star behaves like the DOTALL one. -/
theorem suffixesLazyNoNL_eq_of_no_nl :
    ∀ l : Str, '\n' ∉ l → suffixesLazyNoNL l = suffixesLazy l := by
  intro l
  induction l with
  | nil => intro _; rfl
  | cons c rest ih =>
    intro h
    have hc : (c == '\n') = false := by
      simp only [beq_eq_false_iff_ne]
      intro hc
      subst hc
      exact h (List.mem_cons_self _ _)
    rw [suffixesLazyNoNL, suffixesLazy, if_neg (by simp [hc]),
      ih (fun hm => h (List.mem_cons_of_mem c hm))]

theorem suffixesLazy_append (a b : Str) :
    suffixesLazy (a ++ b) =
      (suffixesLazy a).dropLast.map (· ++ b) ++ suffixesLazy b := by
  induction a with
  | nil => simp [suffixesLazy]
  | cons x a2 ih =>
    rw [List.cons_append, suffixesLazy, ih, suffixesLazy,
      List.dropLast_cons_of_ne_nil (suffixesLazy_ne_nil a2), List.map_cons]
    simp

theorem mem_suffixesLazy_isSuffix :
    ∀ {l s : Str}, s ∈ suffixesLazy l → s <:+ l := by
  intro l
  induction l with
  | nil =>
    intro s hs
    simp only [suffixesLazy, List.mem_singleton] at hs
    simp [hs]
  | cons c rest ih =>
    intro s hs
    simp only [suffixesLazy, List.mem_cons] at hs
    rcases hs with h | h
    · exact h ▸ List.suffix_refl _
    · exact (ih h).trans (List.suffix_cons c rest)

theorem mem_dropLast_suffixesLazy :
    ∀ {l s : Str}, s ∈ (suffixesLazy l).dropLast → ∃ c t, s = c :: t ∧ c ∈ l := by
  intro l
  induction l with
  | nil =>
    intro s hs
    simp [suffixesLazy] at hs
  | cons c rest ih =>
    intro s hs
    rw [suffixesLazy,
      List.dropLast_cons_of_ne_nil (suffixesLazy_ne_nil rest)] at hs
    rcases List.mem_cons.mp hs with h | h
    · exact ⟨c, rest, h, List.mem_cons_self c rest⟩
    · obtain ⟨d, t, rfl, hd⟩ := ih h
      exact ⟨d, t, rfl, List.mem_cons_of_mem c hd⟩

/-- The fuel argument of `reSubFuel` is irrelevant as long as it dominates the
input length. -/
theorem reSubFuel_irrel (r : RE) (f : List Str → Str → Str) :
    ∀ (fuel1 fuel2 : Nat) (l : Str), l.length ≤ fuel1 → l.length ≤ fuel2 →
      reSubFuel r f fuel1 l = reSubFuel r f fuel2 l := by
  intro fuel1
  induction fuel1 with
  | zero =>
    intro fuel2 l h1 _
    have : l = [] := List.length_eq_zero.mp (Nat.le_zero.mp h1)
    subst this
    cases fuel2 <;> rfl
  | succ fuel ih =>
    intro fuel2 l h1 h2
    cases l with
    | nil => cases fuel2 <;> rfl
    | cons c rest =>
      cases fuel2 with
      | zero =>
        exact absurd h2 (by simp)
      | succ g =>
        rw [reSubFuel, reSubFuel]
        cases hm : matchRE r (c :: rest) with
        | nil =>
          have hr1 : rest.length ≤ fuel := by
            simp only [List.length_cons] at h1; omega
          have hr2 : rest.length ≤ g := by
            simp only [List.length_cons] at h2; omega
          rw [ih g rest hr1 hr2]
        | cons m ms =>
          simp only
          split
          · next hlt =>
            have hm1 : m.2.length ≤ fuel := by
              simp only [List.length_cons] at h1 hlt; omega
            have hm2 : m.2.length ≤ g := by
              simp only [List.length_cons] at h2 hlt; omega
            rw [ih g m.2 hm1 hm2]
          · have hr1 : rest.length ≤ fuel := by
              simp only [List.length_cons] at h1; omega
            have hr2 : rest.length ≤ g := by
              simp only [List.length_cons] at h2; omega
            rw [ih g rest hr1 hr2]

/-- Unfolding `reSub` at a position with no match: emit one character. -/
theorem reSub_cons_no_match {r : RE} {f : List Str → Str → Str} {c : Char}
    {rest : Str} (hm : matchRE r (c :: rest) = []) :
    reSub r f (c :: rest) = c :: reSub r f rest := by
  show reSubFuel r f (rest.length + 1) (c :: rest) = _
  rw [reSubFuel]
  simp only [hm]
  rfl

/-- Unfolding `reSub` at a matching position: replace and continue after the
match. -/
theorem reSub_cons_match {r : RE} {f : List Str → Str → Str} {c : Char}
    {rest rem : Str} {caps : List Str} {ms : List (List Str × Str)}
    (hm : matchRE r (c :: rest) = (caps, rem) :: ms)
    (hlt : rem.length < (c :: rest).length) :
    reSub r f (c :: rest) =
      f caps ((c :: rest).take ((c :: rest).length - rem.length)) ++
        reSub r f rem := by
  show reSubFuel r f (rest.length + 1) (c :: rest) = _
  rw [reSubFuel]
  simp only [hm]
  rw [if_pos hlt]
  have : reSubFuel r f rest.length rem = reSub r f rem := by
    apply reSubFuel_irrel
    · simp only [List.length_cons] at hlt; omega
    · exact Nat.le_refl _
  rw [this]

/-- `reSub` leaves a block of match-free characters untouched. -/
theorem reSub_clean_front {r : RE} {f : List Str → Str → Str} (xs ys : Str)
    (h : ∀ (c : Char) (rest : Str), c ∈ xs → matchRE r (c :: rest) = []) :
    reSub r f (xs ++ ys) = xs ++ reSub r f ys := by
  induction xs with
  | nil => simp
  | cons c xs2 ih =>
    simp only [List.cons_append]
    rw [reSub_cons_no_match (h c _ (List.mem_cons_self _ _)),
      ih (fun d rest hd => h d rest (List.mem_cons_of_mem c hd))]

theorem reSub_nil (r : RE) (f : List Str → Str → Str) : reSub r f [] = [] := rfl

/-! ## Matching facts for the caption patterns -/

theorem matchRE_caption_close_of_ne {c : Char} (rest : Str) (hc : c ≠ '[') :
    matchRE caption_close_re (c :: rest) = [] := by
  have hb : (('[' : Char) == c) = false := beq_eq_false_iff_ne.mpr (Ne.symm hc)
  show matchRE (.lit ('[' :: "/caption]".toList)) (c :: rest) = []
  simp [matchRE, List.isPrefixOf, hb]

theorem matchRE_caption_open_of_ne {c : Char} (rest : Str) (hc : c ≠ '[') :
    matchRE caption_open_re (c :: rest) = [] := by
  have hb : (('[' : Char) == c) = false := beq_eq_false_iff_ne.mpr (Ne.symm hc)
  show matchRE (.seq (.lit ('[' :: "caption".toList))
    (.seq .starGreedyNoNL (.lit [']']))) (c :: rest) = []
  simp [matchRE, List.isPrefixOf, hb]

/-- The close pattern does not fire on the opening marker `[caption`. -/
theorem matchRE_caption_close_at_open (rest : Str) :
    matchRE caption_close_re ('[' :: 'c' :: rest) = [] := by
  have hb : (('/' : Char) == 'c') = false := by decide
  show matchRE (.lit ('[' :: '/' :: "caption]".toList)) ('[' :: 'c' :: rest) = []
  simp [matchRE, List.isPrefixOf, hb]

/-- The close pattern matches the close marker itself, consuming exactly it. -/
theorem matchRE_caption_close_marker (post : Str) :
    matchRE caption_close_re ('[' :: ("/caption]".toList ++ post)) = [([], post)] := by
  show matchRE caption_close_re ("[/caption]".toList ++ post) = [([], post)]
  have hp : (("[/caption]".toList).isPrefixOf ("[/caption]".toList ++ post)) = true := by
    simp [List.isPrefixOf_iff_prefix]
  show (if ("[/caption]".toList).isPrefixOf ("[/caption]".toList ++ post) = true
    then [(([] : List Str), ("[/caption]".toList ++ post).drop "[/caption]".toList.length)]
    else []) = [([], post)]
  rw [if_pos hp, List.drop_left]

theorem matchRE_lit_rbracket_of_no_rbracket {s : Str} (h : ∀ c ∈ s, c ≠ ']') :
    matchRE (.lit [']']) s = [] := by
  cases s with
  | nil => rfl
  | cons c t =>
    have hb : ((']' : Char) == c) = false :=
      beq_eq_false_iff_ne.mpr (Ne.symm (h c (List.mem_cons_self _ _)))
    simp [matchRE, List.isPrefixOf, hb]

/-- The greedy no-newline star followed by a literal `]` finds exactly the
unique `]` when neither the text before it nor the text after it contains a
`]` or a newline. -/
theorem matchRE_star_rbracket (attrs rest : Str)
    (hna : '\n' ∉ attrs) (hnr : '\n' ∉ rest)
    (hba : ']' ∉ attrs) (hbr : ']' ∉ rest) :
    matchRE (.seq .starGreedyNoNL (.lit [']'])) (attrs ++ ']' :: rest) =
      [([], rest)] := by
  have hnl : '\n' ∉ attrs ++ ']' :: rest := by
    intro hmem
    rcases List.mem_append.mp hmem with h | h
    · exact hna h
    · rcases List.mem_cons.mp h with h | h
      · exact absurd h (by decide)
      · exact hnr h
  show ((matchRE .starGreedyNoNL (attrs ++ ']' :: rest)).flatMap (fun pr =>
    (matchRE (.lit [']']) pr.2).map (fun qr => (pr.1 ++ qr.1, qr.2)))) = [([], rest)]
  rw [show matchRE .starGreedyNoNL (attrs ++ ']' :: rest) =
      (suffixesLazyNoNL (attrs ++ ']' :: rest)).reverse.map
        (fun r => (([] : List Str), r)) from rfl]
  rw [suffixesLazyNoNL_eq_of_no_nl _ hnl, suffixesLazy_append attrs (']' :: rest),
    suffixesLazy, List.reverse_append, List.reverse_cons,
    List.map_append, List.map_append, List.flatMap_append, List.flatMap_append]
  have part1 : ((suffixesLazy rest).reverse.map
      (fun r => (([] : List Str), r))).flatMap (fun pr =>
        (matchRE (.lit [']']) pr.2).map (fun qr => (pr.1 ++ qr.1, qr.2))) = [] := by
    rw [List.flatMap_eq_nil_iff]
    intro p hp
    obtain ⟨s, hs, rfl⟩ := List.mem_map.mp hp
    have hsuf : s <:+ rest := mem_suffixesLazy_isSuffix (List.mem_reverse.mp hs)
    rw [matchRE_lit_rbracket_of_no_rbracket
      (fun c hc hceq => hbr (hsuf.subset (hceq ▸ hc)))]
    rfl
  have part2 : (([(']' :: rest)]).map (fun r => (([] : List Str), r))).flatMap
      (fun pr => (matchRE (.lit [']']) pr.2).map
        (fun qr => (pr.1 ++ qr.1, qr.2))) = [([], rest)] := by
    simp [matchRE, List.isPrefixOf]
  have part3 : (((suffixesLazy attrs).dropLast.map (· ++ ']' :: rest)).reverse.map
      (fun r => (([] : List Str), r))).flatMap (fun pr =>
        (matchRE (.lit [']']) pr.2).map (fun qr => (pr.1 ++ qr.1, qr.2))) = [] := by
    rw [List.flatMap_eq_nil_iff]
    intro p hp
    obtain ⟨s, hs, rfl⟩ := List.mem_map.mp hp
    obtain ⟨q, hq, rfl⟩ := List.mem_map.mp (List.mem_reverse.mp hs)
    obtain ⟨c, t, rfl, hcmem⟩ := mem_dropLast_suffixesLazy hq
    have hb : ((']' : Char) == c) = false :=
      beq_eq_false_iff_ne.mpr (fun hceq => hba (hceq ▸ hcmem))
    simp [matchRE, List.isPrefixOf, hb]
  rw [part1, part2, part3]
  rfl

/-- The open pattern at the open marker: it consumes from `[caption` to the
unique `]`, leaving exactly the text after that `]`. -/
theorem matchRE_caption_open_marker (attrs rest : Str)
    (hna : '\n' ∉ attrs) (hnr : '\n' ∉ rest)
    (hba : ']' ∉ attrs) (hbr : ']' ∉ rest) :
    matchRE caption_open_re ('[' :: ("caption".toList ++ (attrs ++ ']' :: rest))) =
      [([], rest)] := by
  show matchRE caption_open_re ("[caption".toList ++ (attrs ++ ']' :: rest)) =
    [([], rest)]
  have hp : (("[caption".toList).isPrefixOf
      ("[caption".toList ++ (attrs ++ ']' :: rest))) = true := by
    simp [List.isPrefixOf_iff_prefix]
  show ((if ("[caption".toList).isPrefixOf
      ("[caption".toList ++ (attrs ++ ']' :: rest)) = true
    then [(([] : List Str),
      ("[caption".toList ++ (attrs ++ ']' :: rest)).drop "[caption".toList.length)]
    else []).flatMap (fun pr =>
      (matchRE (.seq .starGreedyNoNL (.lit [']'])) pr.2).map
        (fun qr => (pr.1 ++ qr.1, qr.2)))) = [([], rest)]
  rw [if_pos hp, List.drop_left]
  simp only [List.flatMap_cons, List.flatMap_nil, List.append_nil]
  rw [matchRE_star_rbracket attrs rest hna hnr hba hbr]
  rfl

/-- `reSub` is the identity on a fully match-free string. -/
theorem reSub_clean {r : RE} {f : List Str → Str → Str} (xs : Str)
    (h : ∀ (c : Char) (rest : Str), c ∈ xs → matchRE r (c :: rest) = []) :
    reSub r f xs = xs := by
  induction xs with
  | nil => rfl
  | cons c xs2 ih =>
    rw [reSub_cons_no_match (h c _ (List.mem_cons_self _ _)),
      ih (fun d rest hd => h d rest (List.mem_cons_of_mem c hd))]

/-- The close pass walks over the open marker without firing. -/
theorem reSub_close_skip_open_marker (Z : Str) :
    reSub caption_close_re (fun _ _ => []) ("[caption".toList ++ Z) =
      "[caption".toList ++ reSub caption_close_re (fun _ _ => []) Z := by
  show reSub caption_close_re (fun _ _ => [])
      ('[' :: ('c' :: ("aption".toList ++ Z))) =
    '[' :: ('c' :: ("aption".toList ++ reSub caption_close_re (fun _ _ => []) Z))
  have haption : ∀ c ∈ "aption".toList, c ≠ '[' := by decide
  rw [reSub_cons_no_match (matchRE_caption_close_at_open _),
    reSub_cons_no_match (matchRE_caption_close_of_ne _ (by decide)),
    reSub_clean_front "aption".toList Z
      (fun c rest hc => matchRE_caption_close_of_ne rest (haption c hc))]

/-- The close pass at the close marker: the marker is deleted and a match-free
tail is kept. -/
theorem reSub_close_at_marker (post : Str) (hpost : ∀ c ∈ post, c ≠ '[') :
    reSub caption_close_re (fun _ _ => []) ("[/caption]".toList ++ post) =
      post := by
  show reSub caption_close_re (fun _ _ => [])
    ('[' :: ("/caption]".toList ++ post)) = post
  rw [reSub_cons_match (matchRE_caption_close_marker post)
    (by simp [List.length_append]; omega)]
  rw [reSub_clean post (fun c rest hc => matchRE_caption_close_of_ne rest (hpost c hc))]
  rfl

/-- The whole close pass on a well-formed caption: only the close marker is
removed. -/
theorem caption_close_pass (pre attrs inner post : Str)
    (hpre : ∀ c ∈ pre, c ≠ '[') (hattrs : ∀ c ∈ attrs, c ≠ '[')
    (hinner : ∀ c ∈ inner, c ≠ '[') (hpost : ∀ c ∈ post, c ≠ '[') :
    reSub caption_close_re (fun _ _ => [])
      (pre ++ ("[caption".toList ++
        (attrs ++ (']' :: (inner ++ ("[/caption]".toList ++ post)))))) =
    pre ++ ("[caption".toList ++ (attrs ++ (']' :: (inner ++ post)))) := by
  rw [reSub_clean_front pre _
      (fun c rest hc => matchRE_caption_close_of_ne rest (hpre c hc)),
    reSub_close_skip_open_marker,
    reSub_clean_front attrs _
      (fun c rest hc => matchRE_caption_close_of_ne rest (hattrs c hc)),
    reSub_cons_no_match (matchRE_caption_close_of_ne _ (by decide)),
    reSub_clean_front inner _
      (fun c rest hc => matchRE_caption_close_of_ne rest (hinner c hc)),
    reSub_close_at_marker post hpost]

/-- The open pass at the open marker: the span up to the unique `]` is
deleted and a match-free tail is kept. -/
theorem reSub_open_at_marker (attrs rest : Str)
    (hna : '\n' ∉ attrs) (hnr : '\n' ∉ rest)
    (hba : ']' ∉ attrs) (hbr : ']' ∉ rest)
    (hlb : ∀ c ∈ rest, c ≠ '[') :
    reSub caption_open_re (fun _ _ => [])
      ("[caption".toList ++ (attrs ++ (']' :: rest))) = rest := by
  show reSub caption_open_re (fun _ _ => [])
    ('[' :: ("caption".toList ++ (attrs ++ (']' :: rest)))) = rest
  rw [reSub_cons_match (matchRE_caption_open_marker attrs rest hna hnr hba hbr)
    (by simp [List.length_append]; omega)]
  rw [reSub_clean rest (fun c tail hc => matchRE_caption_open_of_ne tail (hlb c hc))]
  rfl

/-- The whole open pass after the close pass removed the close marker. -/
theorem caption_open_pass (pre attrs inner post : Str)
    (hpre : ∀ c ∈ pre, c ≠ '[')
    (hna : '\n' ∉ attrs) (hba : ']' ∉ attrs)
    (hni : '\n' ∉ inner) (hbi : ']' ∉ inner) (hli : '[' ∉ inner)
    (hnp : '\n' ∉ post) (hbp : ']' ∉ post) (hlp : '[' ∉ post) :
    reSub caption_open_re (fun _ _ => [])
      (pre ++ ("[caption".toList ++ (attrs ++ (']' :: (inner ++ post))))) =
    pre ++ (inner ++ post) := by
  have hnr : '\n' ∉ inner ++ post := by
    intro hmem
    rcases List.mem_append.mp hmem with h | h
    · exact hni h
    · exact hnp h
  have hbr : ']' ∉ inner ++ post := by
    intro hmem
    rcases List.mem_append.mp hmem with h | h
    · exact hbi h
    · exact hbp h
  have hlr : ∀ c ∈ inner ++ post, c ≠ '[' := by
    intro c hmem hceq
    subst hceq
    rcases List.mem_append.mp hmem with h | h
    · exact hli h
    · exact hlp h
  rw [reSub_clean_front pre _
      (fun c rest hc => matchRE_caption_open_of_ne rest (hpre c hc)),
    reSub_open_at_marker attrs (inner ++ post) hna hnr hba hbr hlr]

/-- **C6** (counterexample): `transform_caption` does not leave inner content
untouched.  With a `]` inside the caption body the open-marker pattern,
greedy up to the last `]` on the line, swallows the body: the result is the
empty string instead of `"see [1]"`. -/
theorem transform_caption_counterexample :
    transform_caption "[caption]see [1][/caption]".toList = [] ∧
    "see [1]".toList ≠ ([] : Str) := by
  constructor
  · rfl
  · decide

/-- **C6** (amended): on input of the form
`pre ++ "[caption" ++ attrs ++ "]" ++ inner ++ "[/caption]" ++ post`,
`transform_caption` removes the caption open and close markers and returns
`pre ++ inner ++ post`, provided `pre` contains no `[` and the attribute
text, the inner content and the trailing text each contain no square
brackets and no newlines — a `]` anywhere after the open marker (in the
body, as the counterexample shows, or in the trailing text of the same
line) lets the greedy open-marker pattern, which extends to the last `]`
on the line, consume content instead. -/
theorem transform_caption_clean (pre attrs inner post : Str)
    (hpre : '[' ∉ pre)
    (hla : '[' ∉ attrs) (hba : ']' ∉ attrs) (hna : '\n' ∉ attrs)
    (hli : '[' ∉ inner) (hbi : ']' ∉ inner) (hni : '\n' ∉ inner)
    (hlp : '[' ∉ post) (hbp : ']' ∉ post) (hnp : '\n' ∉ post) :
    transform_caption
      (pre ++ "[caption".toList ++ attrs ++ ']' :: inner ++
        "[/caption]".toList ++ post) =
    pre ++ inner ++ post := by
  have hpre2 : ∀ c ∈ pre, c ≠ '[' := fun c hc hceq => hpre (hceq ▸ hc)
  have hla2 : ∀ c ∈ attrs, c ≠ '[' := fun c hc hceq => hla (hceq ▸ hc)
  have hli2 : ∀ c ∈ inner, c ≠ '[' := fun c hc hceq => hli (hceq ▸ hc)
  have hlp2 : ∀ c ∈ post, c ≠ '[' := fun c hc hceq => hlp (hceq ▸ hc)
  show reSub caption_open_re (fun _ _ => [])
    (reSub caption_close_re (fun _ _ => [])
      (pre ++ "[caption".toList ++ attrs ++ ']' :: inner ++
        "[/caption]".toList ++ post)) = pre ++ inner ++ post
  simp only [List.append_assoc, List.cons_append]
  rw [caption_close_pass pre attrs inner post hpre2 hla2 hli2 hlp2,
    caption_open_pass pre attrs inner post hpre2 hna hba hni hbi hli hnp hbp hlp]

/-- Witness for the amended C6 at a concrete well-formed caption. -/
theorem transform_caption_clean_witness :
    transform_caption "A [caption id=4 align=left]photo of a cat[/caption] B".toList =
      "A photo of a cat B".toList :=
  transform_caption_clean "A ".toList " id=4 align=left".toList
    "photo of a cat".toList " B".toList
    (by decide) (by decide) (by decide) (by decide) (by decide) (by decide)
    (by decide) (by decide) (by decide) (by decide)

/-! ## The item importer (`import_item`, `process_item`, `import_posts`)

XML extraction (`lxml`, `get_text_tag`) is external: a `WPItem` record carries
the text of the tags `import_item` reads, as `Option Str` (absent tag or
absent text = `none`), with the source's defaults applied inside the
functions.  `urlparse`/`unquote` (urllib), `utils.slugify`,
`utils.to_datetime`, `utils.get_translation_candidate` and `self.site.link`
are external collaborators carried as function fields of `WPConfig`; file
writes, downloads and log calls are recorded as events.  The timezone capture
(`self.timezone`, lines 502-503) patches only the rendered configuration
template and is not part of any modelled output. -/

/-- One `<category>` child of an item: its text and optional `domain`
attribute (categories with `None` text are outside the modelled scope). -/
structure CatElem where
  text : Str
  domain : Option Str
  deriving DecidableEq

/-- The tag texts of one exported `<item>`, as read by the importer. -/
structure WPItem where
  title : Option Str
  link : Str
  postName : Option Str
  postId : Option Str
  description : Option Str
  postDate : Option Str
  status : Option Str
  content : Option Str
  excerpt : Option Str
  categories : List CatElem
  tcPostFormat : Option Str
  postType : Option Str
  postParent : Option Str
  attachmentUrl : Option Str
  attachmentWpLink : Option Str
  additionalSizes : List Str
  deriving DecidableEq

/-- Options and external collaborators of one importer run. -/
structure WPConfig where
  siteUrl : Str
  baseDir : Str
  outputFolder : Str
  defaultLang : Str
  excludeDrafts : Bool
  excludePrivates : Bool
  importEmptyItems : Bool
  squashNewlines : Bool
  separateQtranslate : Bool
  noDownloads : Bool
  phpserializeAvailable : Bool
  urlPath : Str → Str
  urlQuery : Str → Str
  unquote : Str → Str
  slugify : Str → Str
  dateParses : Option Str → Bool
  translationCandidate : Str → Str → Str
  siteLinkTag : Str → Str

/-- Logger calls, abstracted to the call site and its arguments. -/
inductive LogEvent where
  | errorSlug (title : Str)
  | errorMalformedDate (title : Str)
  | warnTrashed (title : Str)
  | noticeDraftExcluded (title : Str)
  | noticePrivateExcluded (title : Str)
  | errorCannotInterpret (folder slug lang : Str)
  | warnEmpty (title : Str)
  | infoDownloading (url dst : Str)
  | warnNoParent (postId : Nat)
  | warnParentNotFound (parentId : Nat)
  deriving DecidableEq

/-- File-system and network effects, recorded as events. -/
inductive FileOp where
  | writeMeta (path title slug : Str) (date : Option Str) (description : Str)
      (tags : List Str) (status : Str) (excerpt : Option Str)
  | writeContent (path : Str) (content : Str)
  | download (url dst : Str)
  | attachmentsInfo (parentId : Nat) (path : Str)
      (attachments : List (Nat × List Str))
  deriving DecidableEq

/-- The outcome of `import_item` on one item. -/
structure ItemResult where
  ret : Option (Str × Str)
  urlMap : List (Str × Str)
  logs : List LogEvent
  ops : List FileOp
  extraLangs : List Str
  allTagsAdds : List Str
  finalPostDate : Option Str
  deriving DecidableEq

/-- `int(·)` on the digit strings WordPress emits for ids (Python raises on
anything else; malformed ids are outside the modelled scope). -/
def parseNatDigits (s : Str) : Nat :=
  s.foldl (fun acc c => acc * 10 + (c.toNat - '0'.toNat)) 0

/-- `os.path.join` of two components with `'/'` as separator (the module runs
the joins on POSIX paths mirrored from URLs). -/
def osJoin2 (a b : Str) : Str :=
  if b.head? = some '/' then b
  else if a.isEmpty || a.getLast? = some '/' then a ++ b
  else a ++ "/".toList ++ b

/-- `os.path.join(*components)`. -/
def osJoin : List Str → Str
  | [] => []
  | x :: xs => xs.foldl osJoin2 x

/-- `str.replace(pat, rep, 1)`; an empty pattern only occurs as
`path.replace('', '', 1)`, the identity. -/
def pyReplaceFirst (pat rep l : Str) : Str :=
  match pat with
  | [] => l
  | p0 :: pt => replaceFirstCore p0 pt rep l

/-- Slug and output-folder derivation of `import_item` (lines 461-490):
take the link's path, cut the base directory, and use either the explicit
name/id fields (query-string links) or the slugified last path segment. -/
def deriveSlug (cfg : WPConfig) (item : WPItem) (outFolder0 : Str) :
    Str × Option Str :=
  let path0 := cfg.unquote (stripSlashes (cfg.urlPath item.link))
  let base := stripSlashes cfg.baseDir
  let path := if base.isPrefixOf path0 then pyReplaceFirst base [] path0 else path0
  let pathlist := splitOnSep "/".toList path
  if !(cfg.urlQuery item.link).isEmpty then
    (osJoin (outFolder0 :: pathlist),
     match pyTruthy item.postName with
     | some s => some s
     | none => pyTruthy item.postId)
  else
    let folder :=
      if pathlist.length > 1 then osJoin (outFolder0 :: pathlist.dropLast)
      else outFolder0
    (folder, some (cfg.slugify (pathlist.getLastD [])))

/-- Accumulator of the category/tag collection loop. -/
structure CatAcc where
  allTags : List Str
  categories : List Str
  tags : List Str
  deriving DecidableEq

/-- One iteration of the category loop (lines 532-543): skip the implicit
default category, record the text in the tag set, then append to the
category or tag list depending on the `domain` attribute. -/
def collectCatStep (acc : CatAcc) (el : CatElem) : CatAcc :=
  let ty := el.domain.getD "category".toList
  if el.text == "Uncategorized".toList && ty == "category".toList then acc
  else
    let acc1 := { acc with allTags := acc.allTags ++ [el.text] }
    if ty == "category".toList then
      { acc1 with categories := acc1.categories ++ [ty] }
    else
      { acc1 with tags := acc1.tags ++ [el.text] }

/-- The category loop over all `<category>` children. -/
def collect_categories_tags (elems : List CatElem) (tags0 : List Str) : CatAcc :=
  elems.foldl collectCatStep { allTags := [], categories := [], tags := tags0 }

/-- The per-language content loop of `import_item` (lines 573-601).  Returns
`(file ops, extra languages, logs, success)`; a failing content transform
aborts the loop (Python `return False` out of the `for`), keeping the ops of
the earlier iterations.  The `tags` state mirrors the source's rebinding of
`tags` to `tags + categories` on every iteration. -/
def langLoop (cfg : WPConfig) (outFolder slug title : Str)
    (postDate : Option Str) (description : Str) (status : Str)
    (excerpt : Option Str) (categories : List Str) (postFormat : Str) :
    List (Str × Str) → List Str → List FileOp × List Str × List LogEvent × Bool
  | [], _ => ([], [], [], true)
  | (lang, content) :: rest, tags =>
    match transform_content cfg.squashNewlines content postFormat with
    | none => ([], [], [.errorCannotInterpret outFolder slug lang], false)
    | some (content2, ext) =>
      let outContentFilename :=
        if !lang.isEmpty && !(lang == cfg.defaultLang) then
          cfg.translationCandidate (slug ++ ".".toList ++ ext) lang
        else slug ++ ".".toList ++ ext
      let extraL := if !lang.isEmpty && !(lang == cfg.defaultLang) then [lang] else []
      let tags2 := tags ++ categories
      let ops : List FileOp :=
        [.writeMeta (osJoin [cfg.outputFolder, outFolder, slug ++ ".meta".toList])
            title slug postDate description tags2 status excerpt,
         .writeContent (osJoin [cfg.outputFolder, outFolder, outContentFilename])
            content2]
      let r := langLoop cfg outFolder slug title postDate description status
        excerpt categories postFormat rest tags2
      (ops ++ r.1, extraL ++ r.2.1, r.2.2.1, r.2.2.2)

/-- `status = get_text_tag(item, wp:status, 'publish')`. -/
def statusOf (item : WPItem) : Str := item.status.getD "publish".toList

/-- `status == 'trash'` (line 517). -/
def isTrash (item : WPItem) : Bool := statusOf item == "trash".toList

/-- `is_private` as set by the status classification (lines 520-530). -/
def isPrivateItem (item : WPItem) : Bool := statusOf item == "private".toList

/-- `is_draft` as set by the status classification: any status other than
`publish`, `private` and `trash` (the trash case returns before this). -/
def isDraftItem (item : WPItem) : Bool :=
  !(statusOf item == "publish".toList) && !(isPrivateItem item)

/-- The content guard of line 562: `content.strip() or self.import_empty_items`. -/
def hasContent (cfg : WPConfig) (item : WPItem) : Bool :=
  !(pyStrip (item.content.getD [])).isEmpty || cfg.importEmptyItems

/-- The body of `import_item` from line 492 on, with the slug already derived
and the post date already parsed or substituted. -/
def importItemCore (cfg : WPConfig) (item : WPItem) (outFolder slug : Str)
    (postDate : Option Str) : ItemResult :=
  let title := item.title.getD "NO TITLE".toList
  let description := item.description.getD []
  let content := item.content.getD []
  let excerpt := pyTruthy item.excerpt
  if isTrash item then
    { ret := none, urlMap := [], logs := [.warnTrashed title], ops := [],
      extraLangs := [], allTagsAdds := [], finalPostDate := postDate }
  else
    let tags0 : List Str :=
      if isPrivateItem item then ["private".toList]
      else if !(statusOf item == "publish".toList) then ["draft".toList]
      else []
    let acc := collect_categories_tags item.categories tags0
    let tags1 :=
      if occursIn "$latex".toList content then acc.tags ++ ["mathjax".toList]
      else acc.tags
    let postFormat :=
      match item.tcPostFormat with
      | none => "wp".toList
      | some f => if f == "wpautop".toList then "wp".toList else f
    if isDraftItem item && cfg.excludeDrafts then
      { ret := none, urlMap := [], logs := [.noticeDraftExcluded title],
        ops := [], extraLangs := [], allTagsAdds := acc.allTags,
        finalPostDate := postDate }
    else if isPrivateItem item && cfg.excludePrivates then
      { ret := none, urlMap := [], logs := [.noticePrivateExcluded title],
        ops := [], extraLangs := [], allTagsAdds := acc.allTags,
        finalPostDate := postDate }
    else if hasContent cfg item then
      -- the URL-map entry is registered here, before any transform runs
      let dst := cfg.siteUrl ++ rstripSlashes outFolder ++ "/".toList ++
        slug ++ ".html".toList
      let translations :=
        if cfg.separateQtranslate then separate_qtranslate_content content
        else [([], content)]
      let r := langLoop cfg outFolder slug title postDate description
        (statusOf item) excerpt acc.categories postFormat translations tags1
      { ret := if r.2.2.2 then some (outFolder, slug) else none,
        urlMap := [(item.link, dst)], logs := r.2.2.1, ops := r.1,
        extraLangs := r.2.1, allTagsAdds := acc.allTags,
        finalPostDate := postDate }
    else
      { ret := none, urlMap := [], logs := [.warnEmpty title], ops := [],
        extraLangs := [], allTagsAdds := acc.allTags, finalPostDate := postDate }

/-- `import_item` (lines 455-606): derive the slug (early failure when a
query-string link has neither name nor id), parse the date (substituting the
Unix epoch and logging an error on failure), then run the main body. -/
def import_item (cfg : WPConfig) (item : WPItem) (outFolder0 : Str) :
    ItemResult :=
  match deriveSlug cfg item outFolder0 with
  | (_, none) =>
    { ret := none, urlMap := [],
      logs := [.errorSlug (item.title.getD "NO TITLE".toList)], ops := [],
      extraLangs := [], allTagsAdds := [], finalPostDate := item.postDate }
  | (outFolder, some slug) =>
    if cfg.dateParses item.postDate then
      importItemCore cfg item outFolder slug item.postDate
    else
      let core := importItemCore cfg item outFolder slug
        (some "1970-01-01 00:00:00".toList)
      { core with
        logs := .errorMalformedDate (item.title.getD "NO TITLE".toList) ::
          core.logs }

theorem importItemCore_finalPostDate (cfg : WPConfig) (item : WPItem)
    (fld slug : Str) (pd : Option Str) :
    (importItemCore cfg item fld slug pd).finalPostDate = pd := by
  simp only [importItemCore]
  split_ifs <;> rfl

/-- The conditions, after slug derivation, under which `import_item` reaches
the content branch that registers the URL-map entry: not trashed, not an
excluded draft or private post, and non-empty content (or empty items
allowed).  This is the amended claim's characterisation, to be compared with
`import_item` itself. -/
def coreRegisters (cfg : WPConfig) (item : WPItem) : Bool :=
  !(isTrash item) &&
    (!(isDraftItem item && cfg.excludeDrafts) &&
      (!(isPrivateItem item && cfg.excludePrivates) && hasContent cfg item))

/-- Amended claim's characterisation including slug derivation. -/
def registersUrlMap (cfg : WPConfig) (item : WPItem) (outFolder0 : Str) : Bool :=
  (deriveSlug cfg item outFolder0).2.isSome && coreRegisters cfg item

theorem importItemCore_urlMap_pos (cfg : WPConfig) (item : WPItem)
    (fld slug : Str) (pd : Option Str) (hreg : coreRegisters cfg item = true) :
    (importItemCore cfg item fld slug pd).urlMap.map Prod.fst = [item.link] := by
  simp only [coreRegisters, Bool.and_eq_true, Bool.not_eq_true'] at hreg
  obtain ⟨h1, h2, h3, h4⟩ := hreg
  simp [importItemCore, h1, h2, h3, h4]

theorem importItemCore_urlMap_neg (cfg : WPConfig) (item : WPItem)
    (fld slug : Str) (pd : Option Str) (hreg : coreRegisters cfg item = false) :
    (importItemCore cfg item fld slug pd).urlMap = [] ∧
      (importItemCore cfg item fld slug pd).ret = none := by
  cases h1 : isTrash item with
  | true => simp [importItemCore, h1]
  | false =>
    cases h2 : isDraftItem item && cfg.excludeDrafts with
    | true => simp [importItemCore, h1, h2]
    | false =>
      cases h3 : isPrivateItem item && cfg.excludePrivates with
      | true => simp [importItemCore, h1, h2, h3]
      | false =>
        cases h4 : hasContent cfg item with
        | true => simp [coreRegisters, h1, h2, h3, h4] at hreg
        | false => simp [importItemCore, h1, h2, h3, h4]

/-- **C1** (amended): a URL-map entry keyed by the item's link is registered
if and only if the item reaches the content branch — slug derivation
succeeds, the status is not `trash`, the item is not an excluded draft or
excluded private post, and the content is non-empty (or empty items are
allowed).  A successful import registers exactly that one entry; but a
failing/unsupported content transform happens after registration, so those
failures keep the entry (see the counterexample). -/
theorem import_item_url_map (cfg : WPConfig) (item : WPItem)
    (outFolder0 : Str) :
    ((import_item cfg item outFolder0).urlMap.map Prod.fst =
      if registersUrlMap cfg item outFolder0 then [item.link] else []) ∧
    ((import_item cfg item outFolder0).ret.isSome = true →
      (import_item cfg item outFolder0).urlMap.map Prod.fst = [item.link]) := by
  cases hds : deriveSlug cfg item outFolder0 with
  | mk fld slugOpt =>
    cases slugOpt with
    | none =>
      constructor
      · simp [import_item, hds, registersUrlMap]
      · intro hr
        simp [import_item, hds] at hr
    | some slug =>
      have hkey : ∀ pd,
          (importItemCore cfg item fld slug pd).urlMap.map Prod.fst =
            (if registersUrlMap cfg item outFolder0 then [item.link] else []) ∧
          ((importItemCore cfg item fld slug pd).ret.isSome = true →
            (importItemCore cfg item fld slug pd).urlMap.map Prod.fst =
              [item.link]) := by
        intro pd
        have hru : registersUrlMap cfg item outFolder0 = coreRegisters cfg item := by
          simp [registersUrlMap, hds]
        rw [hru]
        cases hreg : coreRegisters cfg item with
        | true =>
          refine ⟨?_, ?_⟩
          · rw [importItemCore_urlMap_pos cfg item fld slug pd hreg]
            simp
          · intro _
            rw [importItemCore_urlMap_pos cfg item fld slug pd hreg]
        | false =>
          obtain ⟨hmap, hret⟩ := importItemCore_urlMap_neg cfg item fld slug pd hreg
          refine ⟨by rw [hmap]; rfl, ?_⟩
          intro hr
          rw [hret] at hr
          exact absurd hr (by simp)
      by_cases hd : cfg.dateParses item.postDate
      · simpa [import_item, hds, hd] using hkey item.postDate
      · simpa [import_item, hds, hd] using
          hkey (some "1970-01-01 00:00:00".toList)

/-- A run configuration with simple concrete collaborators, used for the
concrete evaluations. -/
def testCfg : WPConfig where
  siteUrl := "http://new/".toList
  baseDir := "/".toList
  outputFolder := "new_site".toList
  defaultLang := "en".toList
  excludeDrafts := false
  excludePrivates := false
  importEmptyItems := false
  squashNewlines := false
  separateQtranslate := false
  noDownloads := false
  phpserializeAvailable := false
  urlPath := fun l => l.drop "http://old".toList.length
  urlQuery := fun _ => []
  unquote := fun s => s
  slugify := fun s => s
  dateParses := fun d =>
    d == some "2012-09-01 10:00:00".toList ||
    d == some "1970-01-01 00:00:00".toList
  translationCandidate := fun s lang => lang ++ ".".toList ++ s
  siteLinkTag := fun t => "http://new/tag-page/".toList ++ t

/-- A published post with content, used for the concrete evaluations. -/
def testItem : WPItem where
  attachmentWpLink := none
  title := some "Hello".toList
  link := "http://old/2012/09/hello/".toList
  postName := none
  postId := some "42".toList
  description := some "d".toList
  postDate := some "2012-09-01 10:00:00".toList
  status := some "publish".toList
  content := some "body text".toList
  excerpt := none
  categories := []
  tcPostFormat := none
  postType := some "post".toList
  postParent := none
  attachmentUrl := none
  additionalSizes := []

/-- **C1** (counterexample to the claim as stated): an item whose declared
post format is unsupported makes `import_item` return the failure signal,
yet its URL-map entry has already been registered — falsifying "whenever
import_item returns the failure signal … no URL-map entry for that item's
link is registered" for the failing-transform case. -/
theorem import_item_transform_failure_keeps_url_map :
    (import_item testCfg { testItem with tcPostFormat := some "weird".toList }
      "posts".toList).ret = none ∧
    (import_item testCfg { testItem with tcPostFormat := some "weird".toList }
      "posts".toList).urlMap ≠ [] := by
  refine ⟨by rfl, by decide⟩

/-- Witness for the amended C1 at a successfully imported concrete item. -/
theorem import_item_url_map_witness :
    (import_item testCfg testItem "posts".toList).urlMap.map Prod.fst =
      [testItem.link] :=
  (import_item_url_map testCfg testItem "posts".toList).2 (by decide)

/-- **C5** (code-bug evidence): the category loop skips the implicit default
category and records every other element's text in the tag set, and elements
with a non-`category` domain contribute their text to the tags list — but an
element with domain `category` contributes the literal string `"category"`
(the `domain` value) to the categories list, not the category's text. -/
theorem collect_categories_appends_domain_literal :
    collect_categories_tags
        [⟨"News".toList, some "category".toList⟩,
         ⟨"lean".toList, some "post_tag".toList⟩,
         ⟨"Uncategorized".toList, some "category".toList⟩] [] =
      ⟨["News".toList, "lean".toList], ["category".toList], ["lean".toList]⟩ ∧
    (collect_categories_tags
        [⟨"News".toList, some "category".toList⟩] []).categories ≠
      ["News".toList] := by
  refine ⟨by decide, by decide⟩

/-- **C7**: when the publish date fails to parse, `import_item` records the
Unix epoch `1970-01-01 00:00:00` as the post date, logs an error, and
processing continues — the outcome (return value, URL map, file writes)
is exactly that of the same item carrying a valid epoch date. -/
theorem import_item_malformed_date (cfg : WPConfig) (item : WPItem)
    (outFolder0 fld slug : Str)
    (hds : deriveSlug cfg item outFolder0 = (fld, some slug))
    (hdate : cfg.dateParses item.postDate = false)
    (hepoch : cfg.dateParses (some "1970-01-01 00:00:00".toList) = true) :
    (import_item cfg item outFolder0).finalPostDate =
      some "1970-01-01 00:00:00".toList ∧
    LogEvent.errorMalformedDate (item.title.getD "NO TITLE".toList) ∈
      (import_item cfg item outFolder0).logs ∧
    (import_item cfg item outFolder0).ret =
      (import_item cfg { item with postDate := some "1970-01-01 00:00:00".toList }
        outFolder0).ret ∧
    (import_item cfg item outFolder0).urlMap =
      (import_item cfg { item with postDate := some "1970-01-01 00:00:00".toList }
        outFolder0).urlMap ∧
    (import_item cfg item outFolder0).ops =
      (import_item cfg { item with postDate := some "1970-01-01 00:00:00".toList }
        outFolder0).ops := by
  have hds2 : deriveSlug cfg
      { item with postDate := some "1970-01-01 00:00:00".toList } outFolder0 =
      (fld, some slug) := hds
  simp only [import_item, hds, hds2, hdate, hepoch, Bool.false_eq_true,
    if_false, if_true]
  refine ⟨importItemCore_finalPostDate cfg item fld slug _, ?_, rfl, rfl, rfl⟩
  exact List.mem_cons_self _ _

/-- Witness for C7 at a concrete item carrying an unparseable date. -/
theorem import_item_malformed_date_witness :
    (import_item testCfg { testItem with postDate := some "not-a-date".toList }
      "posts".toList).finalPostDate = some "1970-01-01 00:00:00".toList ∧
    LogEvent.errorMalformedDate "Hello".toList ∈
      (import_item testCfg { testItem with postDate := some "not-a-date".toList }
        "posts".toList).logs ∧
    (import_item testCfg { testItem with postDate := some "not-a-date".toList }
      "posts".toList).ret =
      (import_item testCfg
        { testItem with postDate := some "1970-01-01 00:00:00".toList }
        "posts".toList).ret ∧
    (import_item testCfg { testItem with postDate := some "not-a-date".toList }
      "posts".toList).urlMap =
      (import_item testCfg
        { testItem with postDate := some "1970-01-01 00:00:00".toList }
        "posts".toList).urlMap ∧
    (import_item testCfg { testItem with postDate := some "not-a-date".toList }
      "posts".toList).ops =
      (import_item testCfg
        { testItem with postDate := some "1970-01-01 00:00:00".toList }
        "posts".toList).ops :=
  import_item_malformed_date testCfg
    { testItem with postDate := some "not-a-date".toList } "posts".toList
    "posts/2012/09".toList "hello".toList (by decide) (by decide) (by decide)

/-! ## Attachments and the orchestrator (`import_attachment`, `process_item`,
`import_posts`, `_execute`) -/

/-- `os.path.dirname` on POSIX paths/URLs. -/
def osDirname (p : Str) : Str :=
  let head := (p.reverse.dropWhile (fun c => !(c == '/'))).reverse
  if head.isEmpty then []
  else if head.all (fun c => c == '/') then head
  else rstripSlashes head

/-- `download_url_content_to_file` (lines 308-320): a no-op under
`--no-downloads`; otherwise one download attempt (the HTTP transfer and its
logged failure modes are external). -/
def download_url_content_to_file (cfg : WPConfig) (url dst : Str) :
    List FileOp :=
  if cfg.noDownloads then [] else [.download url dst]

/-- The effects of resolving one attachment. -/
structure AttachResult where
  files : List Str
  ops : List FileOp
  links : List (Str × Str)
  logs : List LogEvent
  deriving DecidableEq

/-- One size variant of `download_additional_image_sizes` (lines 379-390). -/
def downloadSizeStep (cfg : WPConfig) (sourcePath : Str) (acc : AttachResult)
    (filename : Str) : AttachResult :=
  let url := List.intercalate "/".toList [sourcePath, filename]
  let path := cfg.urlPath url
  let dst_path := osJoin ([cfg.outputFolder, "files".toList] ++
    splitOnSep "/".toList path)
  let dst_url := List.intercalate "/".toList
    ((splitOnSep "/".toList dst_path).drop 2)
  { files := acc.files ++ [path]
    ops := acc.ops ++ download_url_content_to_file cfg url dst_path
    links := acc.links ++ [(url, '/' :: dst_url)]
    logs := acc.logs ++ [.infoDownloading url dst_path] }

/-- `download_additional_image_sizes` (lines 343-391): nothing without the
`phpserialize` dependency; otherwise one download per size variant listed in
the attachment metadata (the PHP deserialisation is external; the item
carries the decoded file names). -/
def download_additional_image_sizes (cfg : WPConfig) (item : WPItem)
    (sourcePath : Str) : AttachResult :=
  if !cfg.phpserializeAvailable then ⟨[], [], [], []⟩
  else item.additionalSizes.foldl (downloadSizeStep cfg sourcePath)
    ⟨[], [], [], []⟩

/-- `import_attachment` (lines 322-341): download the attachment under
`files/**`, register the (wp-namespaced) link and the source URL in the
module-level `links` map, then fetch the additional size variants. -/
def import_attachment (cfg : WPConfig) (item : WPItem) : AttachResult :=
  let url := item.attachmentUrl.getD "foo".toList
  let link := item.attachmentWpLink.getD "foo".toList
  let path := cfg.urlPath url
  let dst_path := osJoin ([cfg.outputFolder, "files".toList] ++
    splitOnSep "/".toList path)
  let dst_url := List.intercalate "/".toList
    ((splitOnSep "/".toList dst_path).drop 2)
  let extra := download_additional_image_sizes cfg item (osDirname url)
  { files := [path] ++ extra.files
    ops := download_url_content_to_file cfg url dst_path ++ extra.ops
    links := [(link, '/' :: dst_url), (url, '/' :: dst_url)] ++ extra.links
    logs := [.infoDownloading url dst_path] ++ extra.logs }

/-- `dict.get` on an insertion-ordered association list (generic keys). -/
def alistGet {α β : Type} [BEq α] (m : List (α × β)) (k : α) : Option β :=
  (m.find? (fun p => p.1 == k)).map (·.2)

/-- `dict[k] = v` on an insertion-ordered association list (generic keys). -/
def alistSet {α β : Type} [BEq α] (m : List (α × β)) (k : α) (v : β) :
    List (α × β) :=
  match m with
  | [] => [(k, v)]
  | p :: rest => if p.1 == k then (k, v) :: rest else p :: alistSet rest k v

/-- `set.add` on a Python set modelled as a deduplicated insertion-ordered
list (the claims grant deterministic set ordering). -/
def setAdd {α : Type} [BEq α] (l : List α) (x : α) : List α :=
  if l.contains x then l else l ++ [x]

/-- Adding many elements to the set. -/
def setAddAll {α : Type} [BEq α] (l : List α) (xs : List α) : List α :=
  xs.foldl setAdd l

/-- The orchestrator's accumulators: `self.url_map`, the module-level
`links`, `self.posts_pages`, `self.attachments` (a `defaultdict(dict)`),
`self.extra_languages`, the class-level `all_tags`, and the recorded logs
and file operations. -/
structure RunState where
  urlMap : List (Str × Str)
  links : List (Str × Str)
  postsPages : List (Nat × (Str × Str × Str))
  attachments : List (Nat × List (Nat × List Str))
  logs : List LogEvent
  ops : List FileOp
  extraLangs : List Str
  allTags : List Str
  deriving DecidableEq

/-- `post_type = get_text_tag(item, wp:post_type, 'post')` is `attachment`. -/
def isAttachmentItem (item : WPItem) : Bool :=
  item.postType.getD "post".toList == "attachment".toList

/-- The output folder chosen by `process_item` for a non-attachment item. -/
def folderOf (item : WPItem) : Str :=
  if item.postType.getD "post".toList == "post".toList then "posts".toList
  else "stories".toList

/-- The normalised post type recorded in `posts_pages` (`post` or `page`). -/
def ptypeOf (item : WPItem) : Str :=
  if item.postType.getD "post".toList == "post".toList then "post".toList
  else "page".toList

/-- `post_id = int(get_text_tag(item, wp:post_id, '0'))`. -/
def postIdOf (item : WPItem) : Nat :=
  parseNatDigits (item.postId.getD "0".toList)

/-- `process_item` (lines 608-634): dispatch on `wp:post_type`. -/
def process_item (cfg : WPConfig) (st : RunState) (item : WPItem) : RunState :=
  if isAttachmentItem item then
    let r := import_attachment cfg item
    let st1 := { st with
      ops := st.ops ++ r.ops
      logs := st.logs ++ r.logs
      links := r.links.foldl
        (fun (m : List (Str × Str)) (kv : Str × Str) => alistSet m kv.1 kv.2)
        st.links }
    match item.postParent with
    | some p =>
      let parent := parseNatDigits p
      let inner := (alistGet st1.attachments parent).getD []
      { st1 with attachments :=
          (alistSet st1.attachments parent
            (alistSet inner (postIdOf item) r.files)) }
    | none =>
      { st1 with logs := st1.logs ++ [.warnNoParent (postIdOf item)] }
  else
    let r := import_item cfg item (folderOf item)
    let st1 := { st with
      urlMap := r.urlMap.foldl
        (fun (m : List (Str × Str)) (kv : Str × Str) => alistSet m kv.1 kv.2)
        st.urlMap
      logs := st.logs ++ r.logs
      ops := st.ops ++ r.ops
      extraLangs := setAddAll st.extraLangs r.extraLangs
      allTags := setAddAll st.allTags r.allTagsAdds }
    match r.ret with
    | some fs =>
      { st1 with postsPages :=
          (alistSet st1.postsPages (postIdOf item) (ptypeOf item, fs.1, fs.2)) }
    | none => st1

/-- One iteration of the attachment-assignment loop of `import_posts`
(lines 646-653), over the fixed final `posts_pages` map `pp`. -/
def sidecarStep (cfg : WPConfig) (pp : List (Nat × (Str × Str × Str)))
    (s : RunState) (pa : Nat × List (Nat × List Str)) : RunState :=
  match alistGet pp pa.1 with
  | some t =>
    { s with ops := s.ops ++
        [.attachmentsInfo pa.1
          (osJoin [cfg.outputFolder, t.2.1, t.2.2 ++ ".attachments.json".toList])
          pa.2] }
  | none => { s with logs := s.logs ++ [.warnParentNotFound pa.1] }

/-- `import_posts` (lines 640-653): reset `posts_pages` and `attachments`,
process every item in document order, then write one sidecar per parent that
matches a processed post/page and a warning per parent that does not. -/
def import_posts (cfg : WPConfig) (st0 : RunState) (channel : List WPItem) :
    RunState :=
  let st := { st0 with postsPages := [], attachments := [] }
  let st1 := channel.foldl (process_item cfg) st
  st1.attachments.foldl (sidecarStep cfg st1.postsPages) st1

/-- One tag redirect of `_execute` (lines 223-232): `slugify` the tag and
record a redirect when the legacy tag URL differs from the new one (the
`decode` fallback is the identity on Python 3 strings). -/
def addTagRedirect (cfg : WPConfig) (m : List (Str × Str)) (tag : Str) :
    List (Str × Str) :=
  let tag2 := cfg.slugify tag
  let src := cfg.siteUrl ++ "tag/".toList ++ tag2
  let dst := cfg.siteLinkTag tag2
  if !(src == dst) then alistSet m src dst else m

/-- State that outlives one `_execute` run in the same process: the
class-level `all_tags` set and the module-level `links` map.  `url_map`,
`extra_languages`, `posts_pages` and `attachments` are reset per run. -/
structure PersistState where
  allTags : List Str
  links : List (Str × Str)
  deriving DecidableEq

/-- The outputs of one run that land on disk. -/
structure RunOutput where
  urlMapCsv : List (Str × Str)
  ops : List FileOp
  logs : List LogEvent
  deriving DecidableEq

/-- Modelled from the spec: `write_urlmap_csv` (a collaborator from the
generic import scaffolding, outside this module) writes one CSV row per
`url_map` entry, in mapping order. -/
def write_urlmap_csv (m : List (Str × Str)) : List (Str × Str) := m

/-- The fresh per-run accumulator state. -/
def initialRunState (persist : PersistState) : RunState where
  urlMap := []
  links := persist.links
  postsPages := []
  attachments := []
  logs := []
  ops := []
  extraLangs := []
  allTags := persist.allTags

/-- The item-processing and output-composition part of `_execute`
(lines 215-235): import all posts, add the tag redirects from the `all_tags`
set, and write the URL map as CSV. -/
def executeRun (cfg : WPConfig) (persist : PersistState)
    (channel : List WPItem) : RunOutput × PersistState :=
  let st := import_posts cfg (initialRunState persist) channel
  let urlMap2 := st.allTags.foldl (addTagRedirect cfg) st.urlMap
  ({ urlMapCsv := write_urlmap_csv urlMap2, ops := st.ops, logs := st.logs },
   { allTags := st.allTags, links := st.links })

/-! ## Determinism of a rerun (C9) -/

theorem setAdd_of_mem {l : List Str} {x : Str} (h : x ∈ l) :
    setAdd l x = l := by
  simp [setAdd, List.contains, List.elem_eq_mem, h]

theorem mem_setAdd_self (l : List Str) (x : Str) : x ∈ setAdd l x := by
  by_cases h : x ∈ l
  · rw [setAdd_of_mem h]; exact h
  · simp [setAdd, List.contains, List.elem_eq_mem, h]

theorem mem_setAdd_of_mem {l : List Str} {y : Str} (x : Str) (h : y ∈ l) :
    y ∈ setAdd l x := by
  by_cases hx : x ∈ l
  · rw [setAdd_of_mem hx]; exact h
  · simp [setAdd, List.contains, List.elem_eq_mem, hx]
    exact Or.inl h

theorem mem_setAddAll_of_mem {l : List Str} {y : Str} (xs : List Str)
    (h : y ∈ l) : y ∈ setAddAll l xs := by
  induction xs generalizing l with
  | nil => exact h
  | cons x xs ih => exact ih (mem_setAdd_of_mem x h)

theorem mem_setAddAll_of_mem_adds {xs : List Str} {y : Str} (l : List Str)
    (h : y ∈ xs) : y ∈ setAddAll l xs := by
  induction xs generalizing l with
  | nil => cases h
  | cons x xs ih =>
    rcases List.mem_cons.mp h with rfl | h
    · exact mem_setAddAll_of_mem xs (mem_setAdd_self l y)
    · exact ih (setAdd l x) h

theorem setAddAll_of_subset {l xs : List Str} (h : ∀ x ∈ xs, x ∈ l) :
    setAddAll l xs = l := by
  induction xs with
  | nil => rfl
  | cons x xs ih =>
    show setAddAll (setAdd l x) xs = l
    rw [setAdd_of_mem (h x (List.mem_cons_self _ _))]
    exact ih (fun y hy => h y (List.mem_cons_of_mem x hy))

/-- Rerunning `setAddAll` with the same additions is the identity: the
class-level `all_tags` set stabilises after the first run. -/
theorem setAddAll_idem (l xs : List Str) :
    setAddAll (setAddAll l xs) xs = setAddAll l xs :=
  setAddAll_of_subset (fun _ hx => mem_setAddAll_of_mem_adds l hx)

/-- The file operations contributed by one item (state-independent). -/
def itemOps (cfg : WPConfig) (item : WPItem) : List FileOp :=
  if isAttachmentItem item then (import_attachment cfg item).ops
  else (import_item cfg item (folderOf item)).ops

/-- The log entries contributed by one item (state-independent). -/
def itemLogs (cfg : WPConfig) (item : WPItem) : List LogEvent :=
  if isAttachmentItem item then
    (import_attachment cfg item).logs ++
      (match item.postParent with
       | some _ => []
       | none => [.warnNoParent (postIdOf item)])
  else (import_item cfg item (folderOf item)).logs

/-- The URL-map assignments contributed by one item. -/
def itemUrlEntries (cfg : WPConfig) (item : WPItem) : List (Str × Str) :=
  if isAttachmentItem item then []
  else (import_item cfg item (folderOf item)).urlMap

/-- The `links`-map assignments contributed by one item. -/
def itemLinkEntries (cfg : WPConfig) (item : WPItem) : List (Str × Str) :=
  if isAttachmentItem item then (import_attachment cfg item).links else []

/-- The extra languages contributed by one item. -/
def itemExtraLangs (cfg : WPConfig) (item : WPItem) : List Str :=
  if isAttachmentItem item then []
  else (import_item cfg item (folderOf item)).extraLangs

/-- The tag-set additions contributed by one item. -/
def itemTagAdds (cfg : WPConfig) (item : WPItem) : List Str :=
  if isAttachmentItem item then []
  else (import_item cfg item (folderOf item)).allTagsAdds

/-- The `posts_pages` update contributed by one item. -/
def ppUpdate (cfg : WPConfig) (item : WPItem)
    (pp : List (Nat × (Str × Str × Str))) : List (Nat × (Str × Str × Str)) :=
  if isAttachmentItem item then pp
  else
    match (import_item cfg item (folderOf item)).ret with
    | some fs => alistSet pp (postIdOf item) (ptypeOf item, fs.1, fs.2)
    | none => pp

/-- The `attachments` update contributed by one item. -/
def attUpdate (cfg : WPConfig) (item : WPItem)
    (a : List (Nat × List (Nat × List Str))) :
    List (Nat × List (Nat × List Str)) :=
  if isAttachmentItem item then
    match item.postParent with
    | some p =>
      alistSet a (parseNatDigits p)
        (alistSet ((alistGet a (parseNatDigits p)).getD [])
          (postIdOf item) (import_attachment cfg item).files)
    | none => a
  else a

/-- `process_item` characterised field by field: every accumulator is updated
by a state-independent per-item contribution, and `all_tags`/`links` are
never read by the other updates. -/
theorem process_item_fields (cfg : WPConfig) (st : RunState) (item : WPItem) :
    process_item cfg st item =
      { urlMap := (itemUrlEntries cfg item).foldl
          (fun (m : List (Str × Str)) (kv : Str × Str) => alistSet m kv.1 kv.2)
          st.urlMap
        links := (itemLinkEntries cfg item).foldl
          (fun (m : List (Str × Str)) (kv : Str × Str) => alistSet m kv.1 kv.2)
          st.links
        postsPages := ppUpdate cfg item st.postsPages
        attachments := attUpdate cfg item st.attachments
        logs := st.logs ++ itemLogs cfg item
        ops := st.ops ++ itemOps cfg item
        extraLangs := setAddAll st.extraLangs (itemExtraLangs cfg item)
        allTags := setAddAll st.allTags (itemTagAdds cfg item) } := by
  unfold process_item itemUrlEntries itemLinkEntries ppUpdate attUpdate
    itemLogs itemOps itemExtraLangs itemTagAdds
  split
  · cases hp : item.postParent <;> simp [hp, List.append_assoc, setAddAll]
  · cases hr : (import_item cfg item (folderOf item)).ret <;>
      simp [hr, List.append_assoc, setAddAll]

/-- Agreement on the per-run (non-persistent) accumulators. -/
def NPAgree (a b : RunState) : Prop :=
  a.urlMap = b.urlMap ∧ a.postsPages = b.postsPages ∧
    a.attachments = b.attachments ∧ a.logs = b.logs ∧ a.ops = b.ops ∧
    a.extraLangs = b.extraLangs

/-- `process_item` never reads `all_tags` or `links`, so the per-run
accumulators evolve identically from identical per-run starts. -/
theorem process_item_NPAgree (cfg : WPConfig) (item : WPItem)
    {st st' : RunState} (h : NPAgree st st') :
    NPAgree (process_item cfg st item) (process_item cfg st' item) := by
  obtain ⟨h1, h2, h3, h4, h5, h6⟩ := h
  unfold NPAgree
  rw [process_item_fields, process_item_fields]
  exact ⟨by rw [h1], by rw [h2], by rw [h3], by rw [h4], by rw [h5],
    by rw [h6]⟩

theorem foldl_process_item_NPAgree (cfg : WPConfig) (channel : List WPItem) :
    ∀ {st st' : RunState}, NPAgree st st' →
      NPAgree (channel.foldl (process_item cfg) st)
        (channel.foldl (process_item cfg) st') := by
  induction channel with
  | nil => intro st st' h; exact h
  | cons i rest ih =>
    intro st st' h
    exact ih (process_item_NPAgree cfg i h)

theorem process_item_allTags (cfg : WPConfig) (item : WPItem)
    (st : RunState) :
    (process_item cfg st item).allTags =
      setAddAll st.allTags (itemTagAdds cfg item) := by
  rw [process_item_fields]

theorem foldl_process_item_allTags (cfg : WPConfig) (channel : List WPItem) :
    ∀ st : RunState,
      (channel.foldl (process_item cfg) st).allTags =
        setAddAll st.allTags (channel.flatMap (itemTagAdds cfg)) := by
  induction channel with
  | nil => intro st; rfl
  | cons i rest ih =>
    intro st
    rw [List.foldl_cons, ih, process_item_allTags, List.flatMap_cons]
    show List.foldl setAdd
        (List.foldl setAdd st.allTags (itemTagAdds cfg i))
        (rest.flatMap (itemTagAdds cfg)) =
      List.foldl setAdd st.allTags
        (itemTagAdds cfg i ++ rest.flatMap (itemTagAdds cfg))
    rw [List.foldl_append]

/-- The sidecar loop only appends ops and logs. -/
theorem sidecar_foldl_preserves (cfg : WPConfig)
    (pp : List (Nat × (Str × Str × Str)))
    (pairs : List (Nat × List (Nat × List Str))) :
    ∀ s : RunState,
      (pairs.foldl (sidecarStep cfg pp) s).urlMap = s.urlMap ∧
      (pairs.foldl (sidecarStep cfg pp) s).links = s.links ∧
      (pairs.foldl (sidecarStep cfg pp) s).allTags = s.allTags ∧
      (pairs.foldl (sidecarStep cfg pp) s).postsPages = s.postsPages ∧
      (pairs.foldl (sidecarStep cfg pp) s).attachments = s.attachments ∧
      (pairs.foldl (sidecarStep cfg pp) s).extraLangs = s.extraLangs := by
  induction pairs with
  | nil => intro s; exact ⟨rfl, rfl, rfl, rfl, rfl, rfl⟩
  | cons pa rest ih =>
    intro s
    have hstep :
        (sidecarStep cfg pp s pa).urlMap = s.urlMap ∧
        (sidecarStep cfg pp s pa).links = s.links ∧
        (sidecarStep cfg pp s pa).allTags = s.allTags ∧
        (sidecarStep cfg pp s pa).postsPages = s.postsPages ∧
        (sidecarStep cfg pp s pa).attachments = s.attachments ∧
        (sidecarStep cfg pp s pa).extraLangs = s.extraLangs := by
      unfold sidecarStep
      cases alistGet pp pa.1 <;> simp
    obtain ⟨e1, e2, e3, e4, e5, e6⟩ := ih (sidecarStep cfg pp s pa)
    obtain ⟨f1, f2, f3, f4, f5, f6⟩ := hstep
    rw [List.foldl_cons]
    exact ⟨e1.trans f1, e2.trans f2, e3.trans f3, e4.trans f4,
      e5.trans f5, e6.trans f6⟩

theorem sidecar_foldl_NPAgree (cfg : WPConfig)
    (pp : List (Nat × (Str × Str × Str)))
    (pairs : List (Nat × List (Nat × List Str))) :
    ∀ {s s' : RunState}, NPAgree s s' →
      NPAgree (pairs.foldl (sidecarStep cfg pp) s)
        (pairs.foldl (sidecarStep cfg pp) s') := by
  induction pairs with
  | nil => intro s s' h; exact h
  | cons pa rest ih =>
    intro s s' h
    obtain ⟨h1, h2, h3, h4, h5, h6⟩ := h
    have hstep : NPAgree (sidecarStep cfg pp s pa) (sidecarStep cfg pp s' pa) := by
      unfold sidecarStep
      cases alistGet pp pa.1 <;> simp [NPAgree, h1, h2, h3, h4, h5, h6]
    exact ih hstep

theorem sidecar_wrap_NPAgree (cfg : WPConfig) {a b : RunState}
    (h : NPAgree a b) :
    NPAgree (a.attachments.foldl (sidecarStep cfg a.postsPages) a)
      (b.attachments.foldl (sidecarStep cfg b.postsPages) b) := by
  obtain ⟨hu, hpp, hat, hlg, hop, hel⟩ := h
  rw [← hat, ← hpp]
  exact sidecar_foldl_NPAgree cfg _ _ ⟨hu, hpp, hat, hlg, hop, hel⟩

theorem import_posts_NPAgree (cfg : WPConfig) (channel : List WPItem)
    (p p' : PersistState) :
    NPAgree (import_posts cfg (initialRunState p) channel)
      (import_posts cfg (initialRunState p') channel) := by
  have h0 : NPAgree
      { initialRunState p with postsPages := [], attachments := [] }
      { initialRunState p' with postsPages := [], attachments := [] } :=
    ⟨rfl, rfl, rfl, rfl, rfl, rfl⟩
  exact sidecar_wrap_NPAgree cfg (foldl_process_item_NPAgree cfg channel h0)

theorem import_posts_allTags (cfg : WPConfig) (channel : List WPItem)
    (p : PersistState) :
    (import_posts cfg (initialRunState p) channel).allTags =
      setAddAll p.allTags (channel.flatMap (itemTagAdds cfg)) := by
  unfold import_posts
  rw [(sidecar_foldl_preserves cfg _ _ _).2.2.1,
    foldl_process_item_allTags]
  rfl

/-! ## Orphaned attachments (C8) -/

theorem alistGet_alistSet_self {α β : Type} [BEq α] [LawfulBEq α]
    (m : List (α × β)) (k : α) (v : β) :
    alistGet (alistSet m k v) k = some v := by
  induction m with
  | nil => simp [alistSet, alistGet, List.find?]
  | cons p rest ih =>
    by_cases h : (p.1 == k) = true
    · simp [alistSet, h, alistGet, List.find?]
    · simp only [alistSet, h, if_false, Bool.false_eq_true]
      simp only [alistGet, List.find?, h]
      exact ih

theorem alistGet_alistSet_isSome {α β : Type} [BEq α] [LawfulBEq α]
    (m : List (α × β)) (k k1 : α) (v1 : β)
    (h : (alistGet m k).isSome = true) :
    (alistGet (alistSet m k1 v1) k).isSome = true := by
  induction m with
  | nil => simp [alistGet, List.find?] at h
  | cons p rest ih =>
    by_cases h1 : (p.1 == k1) = true
    · simp only [alistSet, h1, if_true]
      by_cases h2 : (k1 == k) = true
      · simp [alistGet, List.find?, h2]
      · have hne : (k1 == k) = false := by
          cases hkk : (k1 == k) with
          | true => exact absurd hkk h2
          | false => rfl
        have hne2 : (p.1 == k) = false := by rw [eq_of_beq h1]; exact hne
        simp only [alistGet, List.find?, hne, Bool.false_eq_true, if_false]
        simp only [alistGet, List.find?, hne2] at h
        exact h
    · simp only [alistSet, h1, if_false, Bool.false_eq_true]
      by_cases h2 : (p.1 == k) = true
      · simp [alistGet, List.find?, h2]
      · simp only [alistGet, List.find?, h2] at h ⊢
        exact ih h

/-- Applying a list of dict assignments in order. -/
def applyAssignments {α β : Type} [BEq α] (m kvs : List (α × β)) :
    List (α × β) :=
  kvs.foldl (fun (m : List (α × β)) (kv : α × β) => alistSet m kv.1 kv.2) m

theorem applyAssignments_isSome {α β : Type} [BEq α] [LawfulBEq α]
    (kvs : List (α × β)) :
    ∀ (m : List (α × β)) (k : α), (alistGet m k).isSome = true →
      (alistGet (applyAssignments m kvs) k).isSome = true := by
  induction kvs with
  | nil => intro m k h; exact h
  | cons kv rest ih =>
    intro m k h
    exact ih _ k (alistGet_alistSet_isSome m k kv.1 kv.2 h)

theorem applyAssignments_isSome_of_mem {α β : Type} [BEq α] [LawfulBEq α]
    {kvs : List (α × β)} {k : α} {v : β} (hm : (k, v) ∈ kvs) :
    ∀ m : List (α × β),
      (alistGet (applyAssignments m kvs) k).isSome = true := by
  induction kvs with
  | nil => cases hm
  | cons kv rest ih =>
    intro m
    rcases List.mem_cons.mp hm with he | he
    · by_cases hk : (k, v) ∈ rest
      · exact ih hk _
      · show (alistGet (applyAssignments (alistSet m kv.1 kv.2) rest) k).isSome = true
        apply applyAssignments_isSome
        rw [← he]
        simp [alistGet_alistSet_self]
    · exact ih he _

theorem alistGet_isSome_exists_mem {α β : Type} [BEq α] [LawfulBEq α]
    {m : List (α × β)} {k : α} (h : (alistGet m k).isSome = true) :
    ∃ v, (k, v) ∈ m := by
  induction m with
  | nil => simp [alistGet, List.find?] at h
  | cons p rest ih =>
    by_cases hp : (p.1 == k) = true
    · refine ⟨p.2, ?_⟩
      have : p.1 = k := eq_of_beq hp
      rw [← this]
      exact List.mem_cons_self _ _
    · simp only [alistGet, List.find?, hp] at h
      obtain ⟨v, hv⟩ := ih h
      exact ⟨v, List.mem_cons_of_mem _ hv⟩

theorem foldl_process_item_ops (cfg : WPConfig) (channel : List WPItem) :
    ∀ st : RunState,
      (channel.foldl (process_item cfg) st).ops =
        st.ops ++ channel.flatMap (itemOps cfg) := by
  induction channel with
  | nil => intro st; simp
  | cons i rest ih =>
    intro st
    rw [List.foldl_cons, ih, process_item_fields, List.flatMap_cons]
    simp [List.append_assoc]

theorem foldl_process_item_logs (cfg : WPConfig) (channel : List WPItem) :
    ∀ st : RunState,
      (channel.foldl (process_item cfg) st).logs =
        st.logs ++ channel.flatMap (itemLogs cfg) := by
  induction channel with
  | nil => intro st; simp
  | cons i rest ih =>
    intro st
    rw [List.foldl_cons, ih, process_item_fields, List.flatMap_cons]
    simp [List.append_assoc]

theorem foldl_process_item_links (cfg : WPConfig) (channel : List WPItem) :
    ∀ st : RunState,
      (channel.foldl (process_item cfg) st).links =
        applyAssignments st.links (channel.flatMap (itemLinkEntries cfg)) := by
  induction channel with
  | nil => intro st; rfl
  | cons i rest ih =>
    intro st
    rw [List.foldl_cons, ih, process_item_fields, List.flatMap_cons]
    show applyAssignments _ (rest.flatMap (itemLinkEntries cfg)) =
      applyAssignments st.links
        (itemLinkEntries cfg i ++ rest.flatMap (itemLinkEntries cfg))
    unfold applyAssignments
    rw [List.foldl_append]

/-- Recognises the sidecar-write operation. -/
def isSidecarOp : FileOp → Bool
  | .attachmentsInfo _ _ _ => true
  | _ => false

theorem sidecar_foldl_logs_mono (cfg : WPConfig)
    (pp : List (Nat × (Str × Str × Str)))
    (pairs : List (Nat × List (Nat × List Str))) :
    ∀ (s : RunState) (x : LogEvent), x ∈ s.logs →
      x ∈ (pairs.foldl (sidecarStep cfg pp) s).logs := by
  induction pairs with
  | nil => intro s x hx; exact hx
  | cons pa rest ih =>
    intro s x hx
    apply ih
    unfold sidecarStep
    cases alistGet pp pa.1 <;> simp
    · exact Or.inl hx
    · exact hx

theorem sidecar_foldl_warn (cfg : WPConfig)
    (pp : List (Nat × (Str × Str × Str)))
    (pairs : List (Nat × List (Nat × List Str))) :
    ∀ (s : RunState) (pid : Nat) (att : List (Nat × List Str)),
      (pid, att) ∈ pairs → alistGet pp pid = none →
      LogEvent.warnParentNotFound pid ∈
        (pairs.foldl (sidecarStep cfg pp) s).logs := by
  induction pairs with
  | nil => intro s pid att hm; cases hm
  | cons pa rest ih =>
    intro s pid att hm hnone
    rcases List.mem_cons.mp hm with he | he
    · have hpa : pa.1 = pid := by rw [← he]
      rw [List.foldl_cons]
      apply sidecar_foldl_logs_mono
      unfold sidecarStep
      rw [hpa, hnone]
      simp
    · rw [List.foldl_cons]
      exact ih _ pid att he hnone

theorem sidecar_foldl_ops_shape (cfg : WPConfig)
    (pp : List (Nat × (Str × Str × Str)))
    (pairs : List (Nat × List (Nat × List Str))) :
    ∀ s : RunState, ∃ l,
      (pairs.foldl (sidecarStep cfg pp) s).ops = s.ops ++ l ∧
      ∀ pid path att, FileOp.attachmentsInfo pid path att ∈ l →
        (alistGet pp pid).isSome = true := by
  induction pairs with
  | nil =>
    intro s
    exact ⟨[], by simp, by intro pid path att h; cases h⟩
  | cons pa rest ih =>
    intro s
    obtain ⟨l, hl, hprop⟩ := ih (sidecarStep cfg pp s pa)
    rw [List.foldl_cons]
    cases hpp : alistGet pp pa.1 with
    | none =>
      refine ⟨l, ?_, hprop⟩
      rw [hl]
      unfold sidecarStep
      rw [hpp]
    | some t =>
      refine ⟨FileOp.attachmentsInfo pa.1
        (osJoin [cfg.outputFolder, t.2.1, t.2.2 ++ ".attachments.json".toList])
        pa.2 :: l, ?_, ?_⟩
      · rw [hl]
        unfold sidecarStep
        rw [hpp]
        simp
      · intro pid path att hmem
        rcases List.mem_cons.mp hmem with he | he
        · have : pid = pa.1 := by injection he
          rw [this, hpp]
          rfl
        · exact hprop pid path att he

theorem langLoop_no_sidecar (cfg : WPConfig) (oF slug title : Str)
    (pd : Option Str) (desc status : Str) (exc : Option Str)
    (cats : List Str) (pf : Str) :
    ∀ (tr : List (Str × Str)) (tags : List Str),
      ∀ op ∈ (langLoop cfg oF slug title pd desc status exc cats pf
        tr tags).1, isSidecarOp op = false := by
  intro tr
  induction tr with
  | nil => intro tags op hop; cases hop
  | cons head rest ih =>
    obtain ⟨lang, content⟩ := head
    intro tags op hop
    cases hm : transform_content cfg.squashNewlines content pf with
    | none => simp [langLoop, hm] at hop
    | some ce =>
      obtain ⟨c2, ext⟩ := ce
      simp only [langLoop, hm] at hop
      rcases List.mem_append.mp hop with h | h
      · rcases List.mem_cons.mp h with rfl | h2
        · rfl
        · rcases List.mem_cons.mp h2 with rfl | h3
          · rfl
          · cases h3
      · exact ih _ op h

theorem importItemCore_no_sidecar (cfg : WPConfig) (item : WPItem)
    (fld slug : Str) (pd : Option Str) :
    ∀ op ∈ (importItemCore cfg item fld slug pd).ops,
      isSidecarOp op = false := by
  intro op
  cases h1 : isTrash item with
  | true => intro hop; simp [importItemCore, h1] at hop
  | false =>
    cases h2 : isDraftItem item && cfg.excludeDrafts with
    | true => intro hop; simp [importItemCore, h1, h2] at hop
    | false =>
      cases h3 : isPrivateItem item && cfg.excludePrivates with
      | true => intro hop; simp [importItemCore, h1, h2, h3] at hop
      | false =>
        cases h4 : hasContent cfg item with
        | false => intro hop; simp [importItemCore, h1, h2, h3, h4] at hop
        | true =>
          intro hop
          simp only [importItemCore, h1, h2, h3, h4, Bool.false_eq_true,
            if_false, if_true] at hop
          exact langLoop_no_sidecar cfg _ _ _ _ _ _ _ _ _ _ _ op hop

theorem import_item_no_sidecar (cfg : WPConfig) (item : WPItem)
    (oF : Str) :
    ∀ op ∈ (import_item cfg item oF).ops, isSidecarOp op = false := by
  intro op hop
  unfold import_item at hop
  split at hop
  · simp at hop
  · split at hop
    · exact importItemCore_no_sidecar cfg item _ _ _ op hop
    · simp only at hop
      exact importItemCore_no_sidecar cfg item _ _ _ op hop

theorem download_ops_no_sidecar (cfg : WPConfig) (url dst : Str) :
    ∀ op ∈ download_url_content_to_file cfg url dst,
      isSidecarOp op = false := by
  intro op hop
  unfold download_url_content_to_file at hop
  split at hop
  · cases hop
  · rcases List.mem_singleton.mp hop with rfl
    rfl

theorem sizes_foldl_no_sidecar (cfg : WPConfig) (sp : Str)
    (sizes : List Str) :
    ∀ acc : AttachResult, (∀ op ∈ acc.ops, isSidecarOp op = false) →
      ∀ op ∈ (sizes.foldl (downloadSizeStep cfg sp) acc).ops,
        isSidecarOp op = false := by
  induction sizes with
  | nil => intro acc hacc op hop; exact hacc op hop
  | cons f rest ih =>
    intro acc hacc op hop
    refine ih _ ?_ op hop
    intro op2 hop2
    unfold downloadSizeStep at hop2
    simp only at hop2
    rcases List.mem_append.mp hop2 with h | h
    · exact hacc op2 h
    · exact download_ops_no_sidecar cfg _ _ op2 h

theorem import_attachment_no_sidecar (cfg : WPConfig) (item : WPItem) :
    ∀ op ∈ (import_attachment cfg item).ops, isSidecarOp op = false := by
  intro op hop
  unfold import_attachment at hop
  simp only at hop
  rcases List.mem_append.mp hop with h | h
  · exact download_ops_no_sidecar cfg _ _ op h
  · unfold download_additional_image_sizes at h
    split at h
    · cases h
    · exact sizes_foldl_no_sidecar cfg _ _ _ (by intro o ho; cases ho) op h

theorem itemOps_no_sidecar (cfg : WPConfig) (item : WPItem) :
    ∀ op ∈ itemOps cfg item, isSidecarOp op = false := by
  intro op hop
  unfold itemOps at hop
  split at hop
  · exact import_attachment_no_sidecar cfg item op hop
  · exact import_item_no_sidecar cfg item _ op hop

theorem attUpdate_isSome (cfg : WPConfig) (item : WPItem)
    (a : List (Nat × List (Nat × List Str))) (k : Nat)
    (h : (alistGet a k).isSome = true) :
    (alistGet (attUpdate cfg item a) k).isSome = true := by
  unfold attUpdate
  split
  · cases item.postParent with
    | none => exact h
    | some p => exact alistGet_alistSet_isSome a k _ _ h
  · exact h

theorem foldl_att_isSome (cfg : WPConfig) (items : List WPItem) :
    ∀ (st : RunState) (k : Nat),
      (alistGet st.attachments k).isSome = true →
      (alistGet ((items.foldl (process_item cfg) st)).attachments k).isSome
        = true := by
  induction items with
  | nil => intro st k h; exact h
  | cons i rest ih =>
    intro st k h
    rw [List.foldl_cons]
    refine ih _ k ?_
    rw [process_item_fields]
    exact attUpdate_isSome cfg i st.attachments k h

theorem process_item_attachment_adds_key (cfg : WPConfig) (item : WPItem)
    (st : RunState) (p : Str)
    (hatt : isAttachmentItem item = true)
    (hp : item.postParent = some p) :
    (alistGet (process_item cfg st item).attachments
      (parseNatDigits p)).isSome = true := by
  rw [process_item_fields]
  show (alistGet (attUpdate cfg item st.attachments) (parseNatDigits p)).isSome
    = true
  unfold attUpdate
  rw [if_pos hatt, hp]
  simp [alistGet_alistSet_self]

/-- **C8**: an attachment item whose parent id is absent or never matches a
processed post/page still has its files downloaded under the `files/**`
subtree and its link and source URL registered in the `links` URL map; a
warning is logged; and no `.attachments.json` sidecar write happens for that
parent id. -/
theorem import_posts_orphan_attachment (cfg : WPConfig)
    (persist : PersistState) (channel : List WPItem) (item : WPItem)
    (hmem : item ∈ channel) (hatt : isAttachmentItem item = true)
    (hnd : cfg.noDownloads = false) :
    FileOp.download (item.attachmentUrl.getD "foo".toList)
        (osJoin ([cfg.outputFolder, "files".toList] ++
          splitOnSep "/".toList
            (cfg.urlPath (item.attachmentUrl.getD "foo".toList)))) ∈
      (import_posts cfg (initialRunState persist) channel).ops ∧
    (alistGet (import_posts cfg (initialRunState persist) channel).links
      (item.attachmentUrl.getD "foo".toList)).isSome = true ∧
    (alistGet (import_posts cfg (initialRunState persist) channel).links
      (item.attachmentWpLink.getD "foo".toList)).isSome = true ∧
    (item.postParent = none →
      LogEvent.warnNoParent (postIdOf item) ∈
        (import_posts cfg (initialRunState persist) channel).logs) ∧
    (∀ p : Str, item.postParent = some p →
      alistGet (import_posts cfg (initialRunState persist) channel).postsPages
        (parseNatDigits p) = none →
      LogEvent.warnParentNotFound (parseNatDigits p) ∈
        (import_posts cfg (initialRunState persist) channel).logs ∧
      ∀ path att, FileOp.attachmentsInfo (parseNatDigits p) path att ∉
        (import_posts cfg (initialRunState persist) channel).ops) := by
  have hip : import_posts cfg (initialRunState persist) channel =
      (channel.foldl (process_item cfg)
          { initialRunState persist with
            postsPages := [], attachments := [] }).attachments.foldl
        (sidecarStep cfg (channel.foldl (process_item cfg)
          { initialRunState persist with
            postsPages := [], attachments := [] }).postsPages)
        (channel.foldl (process_item cfg)
          { initialRunState persist with
            postsPages := [], attachments := [] }) := rfl
  set stI : RunState :=
    { initialRunState persist with postsPages := [], attachments := [] }
    with hstI
  set st1 := channel.foldl (process_item cfg) stI with hst1
  have hops1 : st1.ops = channel.flatMap (itemOps cfg) := by
    rw [hst1, foldl_process_item_ops]
    rfl
  have hlogs1 : st1.logs = channel.flatMap (itemLogs cfg) := by
    rw [hst1, foldl_process_item_logs]
    rfl
  have hlinks1 : st1.links =
      applyAssignments stI.links (channel.flatMap (itemLinkEntries cfg)) := by
    rw [hst1, foldl_process_item_links]
  obtain ⟨L, hL, hLprop⟩ :=
    sidecar_foldl_ops_shape cfg st1.postsPages st1.attachments st1
  have hpres := sidecar_foldl_preserves cfg st1.postsPages st1.attachments st1
  have hdl : FileOp.download (item.attachmentUrl.getD "foo".toList)
      (osJoin ([cfg.outputFolder, "files".toList] ++
        splitOnSep "/".toList
          (cfg.urlPath (item.attachmentUrl.getD "foo".toList)))) ∈
      itemOps cfg item := by
    unfold itemOps
    rw [if_pos hatt]
    unfold import_attachment
    simp [download_url_content_to_file, hnd]
  have hlinkmem : ∃ v,
      ((item.attachmentUrl.getD "foo".toList), v) ∈ itemLinkEntries cfg item
      := by
    unfold itemLinkEntries
    rw [if_pos hatt]
    unfold import_attachment
    dsimp only
    exact ⟨_, List.mem_append_left _
      (List.mem_cons_of_mem _ (List.mem_cons_self _ _))⟩
  have hwplinkmem : ∃ v,
      ((item.attachmentWpLink.getD "foo".toList), v) ∈
        itemLinkEntries cfg item := by
    unfold itemLinkEntries
    rw [if_pos hatt]
    unfold import_attachment
    dsimp only
    exact ⟨_, List.mem_append_left _ (List.mem_cons_self _ _)⟩
  refine ⟨?_, ?_, ?_, ?_, ?_⟩
  · rw [hip, hL, hops1]
    exact List.mem_append_left _ (List.mem_flatMap.mpr ⟨item, hmem, hdl⟩)
  · obtain ⟨v, hv⟩ := hlinkmem
    rw [hip, hpres.2.1, hlinks1]
    exact applyAssignments_isSome_of_mem
      (List.mem_flatMap.mpr ⟨item, hmem, hv⟩) stI.links
  · obtain ⟨v, hv⟩ := hwplinkmem
    rw [hip, hpres.2.1, hlinks1]
    exact applyAssignments_isSome_of_mem
      (List.mem_flatMap.mpr ⟨item, hmem, hv⟩) stI.links
  · intro hpnone
    have hwl : LogEvent.warnNoParent (postIdOf item) ∈ itemLogs cfg item := by
      unfold itemLogs
      rw [if_pos hatt, hpnone]
      simp
    rw [hip]
    apply sidecar_foldl_logs_mono
    rw [hlogs1]
    exact List.mem_flatMap.mpr ⟨item, hmem, hwl⟩
  · intro p hp hppnone
    rw [hip, hpres.2.2.2.1] at hppnone
    have hkey : (alistGet st1.attachments (parseNatDigits p)).isSome = true := by
      obtain ⟨l1, l2, rfl⟩ := List.append_of_mem hmem
      rw [hst1, List.foldl_append, List.foldl_cons]
      exact foldl_att_isSome cfg l2 _ _
        (process_item_attachment_adds_key cfg item _ p hatt hp)
    obtain ⟨att, hattmem⟩ := alistGet_isSome_exists_mem hkey
    constructor
    · rw [hip]
      exact sidecar_foldl_warn cfg st1.postsPages st1.attachments st1 _ att
        hattmem hppnone
    · intro path att2 hopmem
      rw [hip, hL] at hopmem
      rcases List.mem_append.mp hopmem with h | h
      · rw [hops1] at h
        obtain ⟨i, hi, hopi⟩ := List.mem_flatMap.mp h
        have hns := itemOps_no_sidecar cfg i _ hopi
        simp [isSidecarOp] at hns
      · have hs := hLprop _ path att2 h
        rw [hppnone] at hs
        simp at hs

/-- A concrete attachment item whose parent id (5) matches no processed
post/page. -/
def testAttachment : WPItem where
  title := some "Att".toList
  link := "http://old/files/img.png".toList
  postName := none
  postId := some "9".toList
  description := none
  postDate := none
  status := none
  content := none
  excerpt := none
  categories := []
  tcPostFormat := none
  postType := some "attachment".toList
  postParent := some "5".toList
  attachmentUrl := some "http://old/files/img.png".toList
  attachmentWpLink := some "http://old/att/9/".toList
  additionalSizes := []

/-- Witness for C8: the orphaned attachment is downloaded under `files/**`
and its missing parent produces a warning. -/
theorem import_posts_orphan_attachment_witness :
    FileOp.download "http://old/files/img.png".toList
        (osJoin ([testCfg.outputFolder, "files".toList] ++
          splitOnSep "/".toList "/files/img.png".toList)) ∈
      (import_posts testCfg (initialRunState ⟨[], []⟩) [testAttachment]).ops ∧
    LogEvent.warnParentNotFound 5 ∈
      (import_posts testCfg (initialRunState ⟨[], []⟩) [testAttachment]).logs :=
  have h := import_posts_orphan_attachment testCfg ⟨[], []⟩ [testAttachment]
    testAttachment (by decide) (by decide) (by decide)
  ⟨h.1, (h.2.2.2.2 "5".toList (by decide) (by decide)).1⟩

/-- **C9**: rerunning the importer on the same export with the same options
is deterministic.  The second run starts with the first run's persistent
state (the class-level `all_tags` set and module-level `links` map), but the
per-run accumulators never read them, and re-adding the same tags to the
deduplicated tag set is the identity — so the URL-map CSV rows and the
written content/metadata/download operations are identical. -/
theorem executeRun_rerun_deterministic (cfg : WPConfig)
    (channel : List WPItem) :
    (executeRun cfg (executeRun cfg ⟨[], []⟩ channel).2 channel).1.urlMapCsv =
      (executeRun cfg ⟨[], []⟩ channel).1.urlMapCsv ∧
    (executeRun cfg (executeRun cfg ⟨[], []⟩ channel).2 channel).1.ops =
      (executeRun cfg ⟨[], []⟩ channel).1.ops := by
  have e1 : ∀ p : PersistState, (executeRun cfg p channel).1.ops =
      (import_posts cfg (initialRunState p) channel).ops := fun p => rfl
  have e2 : ∀ p : PersistState, (executeRun cfg p channel).1.urlMapCsv =
      (import_posts cfg (initialRunState p) channel).allTags.foldl
        (addTagRedirect cfg)
        (import_posts cfg (initialRunState p) channel).urlMap := fun p => rfl
  have e3 : ∀ p : PersistState, (executeRun cfg p channel).2.allTags =
      (import_posts cfg (initialRunState p) channel).allTags := fun p => rfl
  obtain ⟨hu, hpp, hat, hlg, hop, hel⟩ :=
    import_posts_NPAgree cfg channel ⟨[], []⟩
      (executeRun cfg ⟨[], []⟩ channel).2
  have hT1 := import_posts_allTags cfg channel (⟨[], []⟩ : PersistState)
  have hT2 := import_posts_allTags cfg channel
    (executeRun cfg ⟨[], []⟩ channel).2
  have hTagsEq :
      (import_posts cfg
        (initialRunState (executeRun cfg ⟨[], []⟩ channel).2) channel).allTags =
      (import_posts cfg (initialRunState ⟨[], []⟩) channel).allTags := by
    rw [hT2, e3, hT1, setAddAll_idem, ← hT1]
  constructor
  · rw [e2, e2, ← hu, hTagsEq]
  · rw [e1, e1, ← hop]
